import Mathlib

/-!
# dregsy: repository list (`internal/pkg/registry`)

A shallow embedding of `repolist.go` and `catalog.go` together with the properties of
`CompileRegex`, `NewRepoList`, `RepoList.Get`, `catalog.Retrieve` and `catalog.Ping`.

Conventions of the embedding

* A Go `string` is a Lean `String`; the strings handled here are valid UTF-8, and every byte
  offset the code uses falls behind ASCII text, so byte offsets and character offsets agree.
* A Go slice `[]string` is a `List String`; the `nil` slice is `[]`.
* A Go result pair `(x, error)` is an `Except GoError _`: `(nil, err)` is `.error err` and
  `(x, nil)` is `.ok x`. These are the only two shapes the code returns.
* A run-time panic (index or slice bound out of range) is `none` of an `Option`.
* `time.Time` is the number of nanoseconds since the zero `Time`, an unbounded `Int`.
* The clock and the listing source live in an explicit `World`, threaded through `Get`.
* A `*auth.Credentials` is an address in an explicit `Heap`; the libraries the Catalog source
  calls are the fields of a `Remote`, and the calls it makes are returned as a list.
-/

/-- A Go `error` value (non-nil), identified by its message. -/
structure GoError where
  msg : String
  deriving DecidableEq, Repr

deriving instance DecidableEq for Except

/-! ## Package `strings` -/

namespace strings

/-- Go: `strings.HasPrefix(s, pre)`. -/
def HasPrefix (s pre : String) : Bool :=
  pre.data.isPrefixOf s.data

/-- Go: `strings.HasSuffix(s, suf)`. -/
def HasSuffix (s suf : String) : Bool :=
  suf.data.isSuffixOf s.data

/-- First occurrence of the non-empty separator `sep`: the text before it and the text after
it (`strings.Index` followed by the two slicings of `genSplit`). -/
def cut (sep : List Char) : List Char → Option (List Char × List Char)
  | [] => none
  | c :: t =>
    if sep.isPrefixOf (c :: t) then some ([], (c :: t).drop sep.length)
    else (cut sep t).map fun p => (c :: p.1, p.2)

/-- Go: `explode(s, n)` of package `strings` for `n ≥ 0`: up to `n` one-character strings, the
last of which holds the remainder. -/
def explode : List Char → Nat → List (List Char)
  | [], _ => []
  | _ :: _, 0 => []
  | c :: t, 1 => [c :: t]
  | c :: t, n + 2 => if t = [] then [[c]] else [c] :: explode t (n + 1)

/-- The loop of `genSplit` for a non-empty separator and `n > 0` pieces. -/
def genSplit (sep : List Char) : List Char → Nat → List (List Char)
  | _, 0 => []
  | s, 1 => [s]
  | s, n + 2 =>
    match cut sep s with
    | none => [s]
    | some (a, b) => a :: genSplit sep b (n + 1)

/-- Go: `strings.SplitN(s, sep, n)` for `n ≥ 0`. -/
def SplitN (s sep : String) (n : Nat) : List String :=
  if n = 0 then []
  else if sep = "" then (explode s.data n).map String.mk
  else (genSplit sep.data s.data n).map String.mk

end strings

/-! ## Package `regexp`

The standard library is not part of the repository. The model covers a fragment of the RE2
language accepted by `regexp.Compile` (Perl flags, no flag groups): literal characters, `.`
(any character but newline), `^` and `$` (begin and end of text), `*`, `+`, `?` (also in
their non-greedy spelling `*?`, `+?`, `??`), `|`, capturing groups `( )` and a backslash
before an ASCII punctuation character. An expression using anything else (character classes,
counted repetition, flag groups, escapes of letters or digits) is answered by the model with
an error that says so; such an answer is not one of Go, and no property below rests on it:
where a property is about which filters compile, the compiler is a parameter
(`CompileRegexWith`, `NewRepoListWith`).
-/

namespace regexp

/-- Parsed expression (`regexp/syntax.Regexp`, restricted to the modelled operators). -/
inductive Regexp where
  | emptyMatch : Regexp
  | literal : Char → Regexp
  | anyCharNotNL : Regexp
  | beginText : Regexp
  | endText : Regexp
  | concat : Regexp → Regexp → Regexp
  | alternate : Regexp → Regexp → Regexp
  | star : Regexp → Regexp
  | plus : Regexp → Regexp
  | quest : Regexp → Regexp
  deriving DecidableEq, Repr

/-- An alternation being read: the branches already closed by `|`, and the pieces of the
branch under construction (most recent first). One frame per open parenthesis, plus one for
the top level. -/
structure Frame where
  alts : List Regexp
  cur : List Regexp
  deriving DecidableEq, Repr

/-- Concatenation of the pieces of one branch. -/
def concatOf : List Regexp → Regexp
  | [] => .emptyMatch
  | [a] => a
  | a :: b :: rest => .concat a (concatOf (b :: rest))

/-- Alternation of the branches. -/
def alternateOf : List Regexp → Regexp
  | [] => .emptyMatch
  | [a] => a
  | a :: b :: rest => .alternate a (alternateOf (b :: rest))

/-- Closes the branch under construction (the parser's `concat`). -/
def Frame.bar (f : Frame) : Frame :=
  { alts := f.alts ++ [concatOf f.cur.reverse], cur := [] }

/-- The expression a frame stands for (the parser's `concat` followed by `alternate`). -/
def Frame.collapse (f : Frame) : Regexp :=
  alternateOf f.bar.alts

/-- Adds one piece to the branch under construction. -/
def Frame.push (f : Frame) (r : Regexp) : Frame :=
  { f with cur := r :: f.cur }

/-- The parser's `repeat`: applies a repetition operator to the last piece; `none` when there
is no piece to apply it to. -/
def Frame.repeat (f : Frame) (op : Regexp → Regexp) : Option Frame :=
  match f.cur with
  | [] => none
  | a :: rest => some { f with cur := op a :: rest }

/-- ASCII letters and digits (the parser's `isalnum`). -/
def isalnum (c : Char) : Bool :=
  ('0' ≤ c && c ≤ '9') || ('A' ≤ c && c ≤ 'Z') || ('a' ≤ c && c ≤ 'z')

/-- Characters the model treats as outside the fragment when met unescaped. -/
def unsupported (c : Char) : Bool :=
  c = '[' || c = ']' || c = '{' || c = '}'

/-- The repetition operator a character denotes, if any. -/
def repeatOp (c : Char) : Option (Regexp → Regexp) :=
  if c = '*' then some .star
  else if c = '+' then some .plus
  else if c = '?' then some .quest
  else none

/-- The text of the repetition operator `c` read before `t`: the operator and, when `t` starts
with `?`, its non-greedy mark. -/
def repeatText (c : Char) (t : List Char) : List Char :=
  match t with
  | '?' :: _ => [c, '?']
  | _ => [c]

/-- A `syntax.Error` with the given code and offending text; its message is what the method
`Error()` returns. -/
def syntaxError (code : String) (expr : List Char) : GoError :=
  ⟨"error parsing regexp: " ++ code ++ ": `" ++ String.mk expr ++ "`"⟩

/-- What the parser has just read, as far as it changes the reading of the next character.
For a repetition operator, and for its non-greedy mark, `text` is the operator as written. -/
inductive Prev where
  | other : Prev
  | opened : Prev
  | repeated (text : List Char) : Prev
  | lazy (text : List Char) : Prev
  | backslash : Prev
  deriving DecidableEq, Repr

/-- The parser's main loop, one character at a time, on the expression `whole`. `prev` is what
was just read: an opening parenthesis (a `?` would start a flag group), a repetition operator
(a `?` makes it non-greedy, any other repetition operator is an error), its non-greedy mark, a
backslash (the character is an escape), or anything else. `top` is the innermost open frame
and `stack` the enclosing ones. The errors built by `syntaxError` are those of Go; the other
three say that the expression is outside the modelled fragment. -/
def parseLoop (whole : List Char) :
    List Char → Prev → Frame → List Frame → Except GoError Regexp
  | [], prev, top, stack =>
    if prev = .backslash then
      .error (syntaxError "trailing backslash at end of expression" [])
    else
      match stack with
      | [] => .ok top.collapse
      | _ :: _ => .error (syntaxError "missing closing )" whole)
  | c :: t, prev, top, stack =>
    if prev = .backslash then
      if c.toNat < 128 && !isalnum c then
        parseLoop whole t .other (top.push (.literal c)) stack
      else .error ⟨"escape sequence: outside the modelled fragment"⟩
    else if c = '?' && prev = .opened then .error ⟨"flag group: outside the modelled fragment"⟩
    else
      match repeatOp c with
      | some op =>
        match prev with
        | .repeated text =>
          if c = '?' then parseLoop whole t (.lazy (text ++ ['?'])) top stack
          else
            .error (syntaxError "invalid nested repetition operator" (text ++ repeatText c t))
        | .lazy text =>
          .error (syntaxError "invalid nested repetition operator" (text ++ repeatText c t))
        | _ =>
          match top.repeat op with
          | none =>
            .error (syntaxError "missing argument to repetition operator" (repeatText c t))
          | some top1 => parseLoop whole t (.repeated [c]) top1 stack
      | none =>
        if c = '(' then parseLoop whole t .opened ⟨[], []⟩ (top :: stack)
        else if c = ')' then
          match stack with
          | [] => .error (syntaxError "unexpected )" whole)
          | outer :: stack1 => parseLoop whole t .other (outer.push top.collapse) stack1
        else if c = '|' then parseLoop whole t .other top.bar stack
        else if c = '.' then parseLoop whole t .other (top.push .anyCharNotNL) stack
        else if c = '^' then parseLoop whole t .other (top.push .beginText) stack
        else if c = '$' then parseLoop whole t .other (top.push .endText) stack
        else if c = '\\' then parseLoop whole t .backslash top stack
        else if unsupported c then .error ⟨"outside the modelled fragment"⟩
        else parseLoop whole t .other (top.push (.literal c)) stack

/-- Go: `regexp.Compile(expr)`, on the modelled fragment. -/
def Compile (expr : String) : Except GoError Regexp :=
  parseLoop expr.data expr.data .other ⟨[], []⟩ []

/-- Positions reachable from `i` by following `f` any number of times, at most `n` steps. -/
def closure (f : Nat → List Nat) : Nat → Nat → List Nat
  | 0, i => [i]
  | n + 1, i => i :: (f i).flatMap (closure f n)

/-- The positions `j` such that the expression matches the text `s` from position `i` up to
position `j`. Positions never decrease along a match, so `s.length + 1` steps exhaust the
iterations of a repetition. -/
def ends (s : List Char) : Regexp → Nat → List Nat
  | .emptyMatch, i => [i]
  | .literal c, i => if s.get? i = some c then [i + 1] else []
  | .anyCharNotNL, i =>
    match s.get? i with
    | some c => if c = '\n' then [] else [i + 1]
    | none => []
  | .beginText, i => if i = 0 then [i] else []
  | .endText, i => if i = s.length then [i] else []
  | .concat a b, i => (ends s a i).flatMap fun j => ends s b j
  | .alternate a b, i => ends s a i ++ ends s b i
  | .star a, i => closure (fun j => ends s a j) (s.length + 1) i
  | .plus a, i => (ends s a i).flatMap (closure (fun j => ends s a j) (s.length + 1))
  | .quest a, i => ends s a i ++ [i]

/-- Go: `Regexp.MatchString(s)`: whether `s` contains any match of the expression. -/
def Regexp.MatchString (re : Regexp) (s : String) : Bool :=
  (List.range (s.length + 1)).any fun i => !(ends s.data re i).isEmpty

/-- Whether the expression matches the whole of `s`, from its first to its last character. -/
def Regexp.matchesWhole (re : Regexp) (s : String) : Bool :=
  (ends s.data re 0).contains s.length

end regexp

/-! ## Package `time` -/

namespace time

/-- A `time.Time`: nanoseconds elapsed since the zero `Time`. -/
abbrev Time := Int

/-- A `time.Duration`: a number of nanoseconds. -/
abbrev Duration := Int

/-- Go: `time.Second`. -/
def Second : Duration := 1000000000

/-- Go: `time.Minute`. -/
def Minute : Duration := 60 * Second

/-- Go: `t.Before(u)`. -/
def Before (t u : Time) : Bool :=
  decide (t < u)

/-- Go: `t.Add(d)`. -/
def Add (t : Time) (d : Duration) : Time :=
  t + d

end time

/-! ## Credentials and listing sources -/

namespace auth

/-- Modelled from the spec: package `auth` is not among the sources. A credentials object
"holds a username, a password/token"; it is mutable and handled by reference. -/
structure Credentials where
  username : String
  password : String
  deriving DecidableEq, Repr

end auth

/-- A `*auth.Credentials`: the index of the object in the heap. -/
abbrev CredsPtr := Nat

/-- The credentials objects allocated so far. -/
structure Heap where
  creds : List auth.Credentials
  deriving DecidableEq, Repr

/-- Modelled from the spec: `creds.Username()`, "username() -> string". -/
def Heap.Username (h : Heap) (p : CredsPtr) : String :=
  (h.creds.getD p ⟨"", ""⟩).username

/-- Modelled from the spec: `creds.Password()`, "password() -> string". -/
def Heap.Password (h : Heap) (p : CredsPtr) : String :=
  (h.creds.getD p ⟨"", ""⟩).password

/-- Modelled from the spec: `auth.NewCredentialsFromBasic`, "a constructor for deriving an
independent copy from a basic username/password pair". Its body is not among the sources;
whether it fails is the parameter `outcome` (`none`: the object is created). -/
def auth.NewCredentialsFromBasic (username password : String) (outcome : Option GoError)
    (h : Heap) : Except GoError CredsPtr × Heap :=
  match outcome with
  | some err => (.error err, h)
  | none => (.ok h.creds.length, { creds := h.creds ++ [⟨username, password⟩] })

namespace oauth2

/-- The fields of `oauth2.Config` that `newCatalog` sets. -/
structure Config where
  ClientID : String
  TokenURL : String
  deriving DecidableEq, Repr

end oauth2

/-- The `catalog` struct of `catalog.go`. -/
structure catalog where
  registry : String
  conf : oauth2.Config
  bearer : Bool
  creds : CredsPtr
  deriving DecidableEq, Repr

/-- Modelled from the spec: the struct behind `newDockerhub`, which is not among the sources:
"IndexSource{registry host, insecure flag, cloned credentials}". -/
structure dockerhub where
  registry : String
  insecure : Bool
  creds : CredsPtr
  deriving DecidableEq, Repr

/-- The implementations of interface `ListSource`. -/
inductive ListSource where
  | catalog : catalog → ListSource
  | dockerhub : dockerhub → ListSource
  deriving DecidableEq, Repr

/-- Whether the source is the Index (DockerHub) variant. -/
def ListSource.isDockerhub : ListSource → Bool
  | .dockerhub _ => true
  | .catalog _ => false

/-- Whether the source is the Catalog variant. -/
def ListSource.isCatalog : ListSource → Bool
  | .catalog _ => true
  | .dockerhub _ => false

/-- Go: `newCatalog` of `catalog.go`. The parameter `insecure` is not used by the body. -/
def newCatalog (reg : String) (_insecure bearer : Bool) (creds : CredsPtr) (h : Heap) :
    ListSource :=
  .catalog
    { registry := reg
      conf := { ClientID := h.Username creds, TokenURL := "https://" ++ reg ++ "/token" }
      bearer := bearer
      creds := creds }

/-- Modelled from the spec: `newDockerhub`, which is not among the sources; it keeps the
registry, the insecure flag and the credentials it is given. -/
def newDockerhub (reg : String) (insecure : Bool) (creds : CredsPtr) : ListSource :=
  .dockerhub { registry := reg, insecure := insecure, creds := creds }

/-! ## `repolist.go` -/

/-- The value of `v` that `CompileRegex` passes to `regexp.Compile`. -/
def CompileRegex.anchored (v : String) : String :=
  let v := if !strings.HasPrefix v "^" then "^" ++ v else v
  let v := if !strings.HasSuffix v "$" then v ++ "$" else v
  v

/-- Go: `CompileRegex`, with the modelled fragment of `regexp.Compile` as the compiler. -/
def CompileRegex (v : String) : Except GoError regexp.Regexp :=
  regexp.Compile (CompileRegex.anchored v)

/-- The struct `RepoList`. -/
structure RepoList where
  registry : String
  filter : regexp.Regexp
  repos : List String
  expiry : time.Time
  source : ListSource
  deriving DecidableEq, Repr

/-- The slice expression `s[n:]`; `none` when `n` is out of range. -/
def sliceFrom (s : String) (n : Nat) : Option String :=
  if n ≤ s.length then some (String.mk (s.data.drop n)) else none

/-- Lines 47 to 57 of `NewRepoList`: the values of `insecure` and `reg`. -/
def NewRepoList.scheme (registry : String) : Option (Bool × String) :=
  if strings.HasPrefix registry "http://" then
    (sliceFrom registry 7).map fun reg => (true, reg)
  else if strings.HasPrefix registry "https://" then
    (sliceFrom registry 8).map fun reg => (false, reg)
  else some (false, registry)

/-- Line 59 of `NewRepoList`: `strings.SplitN(reg, ":", 2)[0]`; `none` when the index is out
of range. -/
def NewRepoList.server (reg : String) : Option String :=
  (strings.SplitN reg ":" 2).head?

/-- Go: `NewRepoList`. The struct is built once its source is known; `repos` and `expiry` keep
their zero values. Besides the three Go parameters the model takes the heap holding the
credentials, the outcome of `auth.NewCredentialsFromBasic`, and `bearer`: the call of
`newCatalog` in `repolist.go` passes three arguments where `catalog.go` declares four, so the
value of its `bearer` parameter is left open. The compiler is the modelled fragment of
`regexp.Compile`. -/
def NewRepoList (registry filter : String) (creds : CredsPtr) (bearer : Bool)
    (copyOutcome : Option GoError) (h : Heap) : Option (Except GoError RepoList × Heap) :=
  match CompileRegex filter with
  | .error err => some (.error err, h)
  | .ok rxf =>
    match NewRepoList.scheme registry with
    | none => none
    | some (insecure, reg) =>
      match NewRepoList.server reg with
      | none => none
      | some server =>
        if server = "registry.hub.docker.com" then
          match auth.NewCredentialsFromBasic (h.Username creds) (h.Password creds)
              copyOutcome h with
          | (.error err, h1) => some (.error err, h1)
          | (.ok credsCopy, h1) =>
            some (.ok { registry := registry, filter := rxf, repos := [], expiry := 0,
                        source := newDockerhub reg insecure credsCopy }, h1)
        else
          some (.ok { registry := registry, filter := rxf, repos := [], expiry := 0,
                      source := newCatalog reg insecure bearer creds h }, h)

/-- The function `CompileRegex` with the library function `regexp.Compile` as the parameter
`compile`. -/
def CompileRegexWith (compile : String → Except GoError regexp.Regexp) (v : String) :
    Except GoError regexp.Regexp :=
  compile (CompileRegex.anchored v)

/-- The function `NewRepoList` with the library function `regexp.Compile` as the parameter
`compile`; line by line it is `NewRepoList`, which is `NewRepoListWith regexp.Compile`. -/
def NewRepoListWith (compile : String → Except GoError regexp.Regexp)
    (registry filter : String) (creds : CredsPtr) (bearer : Bool)
    (copyOutcome : Option GoError) (h : Heap) : Option (Except GoError RepoList × Heap) :=
  match CompileRegexWith compile filter with
  | .error err => some (.error err, h)
  | .ok rxf =>
    match NewRepoList.scheme registry with
    | none => none
    | some (insecure, reg) =>
      match NewRepoList.server reg with
      | none => none
      | some server =>
        if server = "registry.hub.docker.com" then
          match auth.NewCredentialsFromBasic (h.Username creds) (h.Password creds)
              copyOutcome h with
          | (.error err, h1) => some (.error err, h1)
          | (.ok credsCopy, h1) =>
            some (.ok { registry := registry, filter := rxf, repos := [], expiry := 0,
                        source := newDockerhub reg insecure credsCopy }, h1)
        else
          some (.ok { registry := registry, filter := rxf, repos := [], expiry := 0,
                      source := newCatalog reg insecure bearer creds h }, h)

/-- What `Get` reads from outside the `RepoList`: the clock (`clock n` is the value of the
`n`-th call of `time.Now()`, `ticks` the number of calls made so far) and the listing source
(`retrieve n` is the outcome of the `n`-th call of `Retrieve()`, `calls` the number of calls
made so far). -/
structure World where
  clock : Nat → time.Time
  ticks : Nat
  retrieve : Nat → Except GoError (List String)
  calls : Nat

/-- Go: `time.Now()`. -/
def time.Now (w : World) : time.Time × World :=
  (w.clock w.ticks, { w with ticks := w.ticks + 1 })

/-- A call of `Retrieve()` through the interface `ListSource`. -/
def ListSource.Retrieve (_ : ListSource) (w : World) : Except GoError (List String) × World :=
  (w.retrieve w.calls, { w with calls := w.calls + 1 })

/-- The loop of lines 111 to 116 of `Get`: appends to the empty slice every entry of `raw`
that the filter matches. -/
def RepoList.Get.loop (filter : regexp.Regexp) (raw : List String) : List String :=
  raw.foldl (fun repos r => if filter.MatchString r then repos ++ [r] else repos) []

/-- Go: `RepoList.Get`: the result, the `RepoList` after the call and the world after the
call. -/
def RepoList.Get (l : RepoList) (w : World) :
    Except GoError (List String) × RepoList × World :=
  let (now, w1) := time.Now w
  if time.Before now l.expiry then
    (.ok l.repos, l, w1)
  else
    let (res, w2) := l.source.Retrieve w1
    match res with
    | .error err => (.error err, l, w2)
    | .ok raw =>
      let (now2, w3) := time.Now w2
      let l1 := { l with expiry := time.Add now2 (10 * time.Minute) }
      let l2 := { l1 with repos := RepoList.Get.loop l1.filter raw }
      (.ok l2.repos, l2, w3)

/-! ## Concrete objects used to instantiate the theorems -/

/-- A heap holding one credentials object, at address 0. -/
def exampleHeap : Heap :=
  { creds := [⟨"user", "secret"⟩] }

/-- The `RepoList` that `NewRepoList` returns for registry `registry.example.com:5000` and
filter `a/.*`. -/
def exampleList : RepoList :=
  { registry := "registry.example.com:5000"
    filter :=
      .concat .beginText (.concat (.literal 'a') (.concat (.literal '/')
        (.concat (.star .anyCharNotNL) .endText)))
    repos := []
    expiry := 0
    source := newCatalog "registry.example.com:5000" false false 0 exampleHeap }

/-- A world whose clock reads 1000, 1001, 1002 and then 10^12 nanoseconds, and whose source
always answers `a/b`, `c/d`, `a/x`. -/
def exampleWorld : World :=
  { clock := fun n => if n < 3 then 1000 + n else 1000000000000
    ticks := 0
    retrieve := fun _ => .ok ["a/b", "c/d", "a/x"]
    calls := 0 }

/-- A world like `exampleWorld` whose source fails on its first call. -/
def failingWorld : World :=
  { clock := fun n => if n < 3 then 1000 + n else 1000000000000
    ticks := 0
    retrieve := fun n => if n = 0 then .error ⟨"connection refused"⟩ else .ok ["a/b", "c/d", "a/x"]
    calls := 0 }

/-- The states a `RepoList` can be in: those returned by `NewRepoList`, and those left by a
call of `Get` (in any world) on such a state. -/
inductive Reachable : RepoList → Prop where
  | fresh (registry filter : String) (creds : CredsPtr) (bearer : Bool)
      (copyOutcome : Option GoError) (h h1 : Heap) (l : RepoList)
      (hnew : NewRepoList registry filter creds bearer copyOutcome h = some (.ok l, h1)) :
      Reachable l
  | get (l : RepoList) (w : World) (hl : Reachable l) : Reachable (l.Get w).2.1

/-! ## The registry address as the specification describes it -/

namespace spec

/-- The address without its leading `http://` or `https://`, if it has one. -/
def schemeStripped (registry : String) : String :=
  if strings.HasPrefix registry "http://" then String.mk (registry.data.drop 7)
  else if strings.HasPrefix registry "https://" then String.mk (registry.data.drop 8)
  else registry

/-- The part of an address before its first colon (the whole address if it has none). -/
def beforeFirstColon (address : String) : String :=
  String.mk (address.data.takeWhile fun c => c ≠ ':')

end spec

/-! ## The constructor call made by `NewRepoList` -/

/-- The call by which `NewRepoList` binds its source: the constructor chosen (`newDockerhub`
or `newCatalog`) and the registry string and insecure flag handed to it. -/
structure SourceCall where
  dockerhub : Bool
  reg : String
  insecure : Bool
  deriving DecidableEq, Repr

/-- Lines 47 to 63 of `NewRepoList`: scheme stripping, host extraction and the `switch` on the
host; `none` when a slice or index is out of range. -/
def NewRepoList.sourceCall (registry : String) : Option SourceCall :=
  match NewRepoList.scheme registry with
  | none => none
  | some (insecure, reg) =>
    match NewRepoList.server reg with
    | none => none
    | some server =>
      some { dockerhub := decide (server = "registry.hub.docker.com"), reg := reg,
             insecure := insecure }

/-- Lines 63 to 81 of `NewRepoList`: the constructor call itself, with the credentials each
branch hands over (a fresh copy for `newDockerhub`, the caller's object for `newCatalog`). -/
def SourceCall.run (c : SourceCall) (creds : CredsPtr) (bearer : Bool)
    (copyOutcome : Option GoError) (h : Heap) : Except GoError ListSource × Heap :=
  if c.dockerhub then
    match auth.NewCredentialsFromBasic (h.Username creds) (h.Password creds) copyOutcome h with
    | (.error err, h1) => (.error err, h1)
    | (.ok credsCopy, h1) => (.ok (newDockerhub c.reg c.insecure credsCopy), h1)
  else (.ok (newCatalog c.reg c.insecure bearer creds h), h)

/-- The registry string a source was given. -/
def ListSource.registry : ListSource → String
  | .catalog c => c.registry
  | .dockerhub d => d.registry

/-- The credentials object a source holds. -/
def ListSource.creds : ListSource → CredsPtr
  | .catalog c => c.creds
  | .dockerhub d => d.creds

/-- The state and the world after `n` consecutive calls of `Get`. -/
def RepoList.GetN : Nat → RepoList → World → RepoList × World
  | 0, l, w => (l, w)
  | n + 1, l, w => RepoList.GetN n (l.Get w).2.1 (l.Get w).2.2

/-! ## `catalog.go` -/

/-- Modelled from the spec: credentials are "mutable, refreshed in place"; the object at
address `p` becomes `f` of what it was. -/
def Heap.modify (h : Heap) (p : CredsPtr) (f : auth.Credentials → auth.Credentials) : Heap :=
  { creds := h.creds.set p (f (h.creds.getD p ⟨"", ""⟩)) }

/-- Modelled from the spec: `creds.Refresh()`, "refresh() -> error", "a refresh operation that
may rotate the password/token", applied in place. Its body is not among the sources; what it
does to the object and whether it fails is the parameter `outcome`. -/
def Heap.Refresh (h : Heap) (p : CredsPtr)
    (outcome : auth.Credentials → Option GoError × auth.Credentials) : Option GoError × Heap :=
  ((outcome (h.creds.getD p ⟨"", ""⟩)).1, h.modify p fun c => (outcome c).2)

namespace gocrname

/-- A registry handle (`name.Registry`), as `name.NewRegistry` returns it. -/
structure Registry where
  registry : String
  insecure : Bool
  deriving DecidableEq, Repr

end gocrname

namespace gocrauthn

/-- The two implementations of `authn.Authenticator` the code builds. -/
inductive Authenticator where
  | Bearer (Token : String) : Authenticator
  | Basic (Username Password : String) : Authenticator
  deriving DecidableEq, Repr

end gocrauthn

/-- The arguments of one call of `remote.CatalogPage(target, last, n, WithAuth(auth))`. -/
structure CatalogPageCall where
  target : gocrname.Registry
  last : String
  n : Nat
  auth : gocrauthn.Authenticator
  deriving DecidableEq, Repr

/-- The arguments of one call of `conf.PasswordCredentialsToken(ctx, username, password)`. -/
structure TokenCall where
  conf : oauth2.Config
  username : String
  password : String
  deriving DecidableEq, Repr

/-- The collaborators of the Catalog source, none of which is part of the repository's
sources: how each of them answers. -/
structure Remote where
  NewRegistry : String → Except GoError gocrname.Registry
  Refresh : auth.Credentials → Option GoError × auth.Credentials
  CatalogPage : CatalogPageCall → Except GoError (List String)
  PasswordCredentialsToken : TokenCall → Except GoError String

/-- The method `catalog.Retrieve`: the result, the heap after the call and the calls of
`remote.CatalogPage` made. -/
def catalog.Retrieve (c : catalog) (env : Remote) (h : Heap) :
    Except GoError (List String) × Heap × List CatalogPageCall :=
  match env.NewRegistry c.registry with
  | .error err => (.error err, h, [])
  | .ok reg =>
    match h.Refresh c.creds env.Refresh with
    | (some err, h1) => (.error err, h1, [])
    | (none, h1) =>
      let auth : gocrauthn.Authenticator :=
        if c.bearer then .Bearer (h1.Password c.creds)
        else .Basic (h1.Username c.creds) (h1.Password c.creds)
      match env.CatalogPage ⟨reg, "", 100, auth⟩ with
      | .error err => (.error err, h1, [⟨reg, "", 100, auth⟩])
      | .ok ret => (.ok ret, h1, [⟨reg, "", 100, auth⟩])

/-- The method `catalog.Ping`: the error returned (`none` for `nil`) and the calls of
`PasswordCredentialsToken` made. -/
def catalog.Ping (c : catalog) (env : Remote) (h : Heap) : Option GoError × List TokenCall :=
  match env.PasswordCredentialsToken ⟨c.conf, h.Username c.creds, h.Password c.creds⟩ with
  | .error err => (some err, [⟨c.conf, h.Username c.creds, h.Password c.creds⟩])
  | .ok _ => (none, [⟨c.conf, h.Username c.creds, h.Password c.creds⟩])

/-- The stages of `catalog.Retrieve` that can fail. -/
inductive Stage where
  | registry : Stage
  | credentials : Stage
  | catalogCall : Stage
  deriving DecidableEq, Repr

/-- The stage at which a run of `catalog.Retrieve` fails, if it fails. -/
def catalog.failedStage (c : catalog) (env : Remote) (h : Heap) : Option Stage :=
  match env.NewRegistry c.registry with
  | .error _ => some .registry
  | .ok reg =>
    match h.Refresh c.creds env.Refresh with
    | (some _, _) => some .credentials
    | (none, h1) =>
      match env.CatalogPage ⟨reg, "", 100,
          if c.bearer then .Bearer (h1.Password c.creds)
          else .Basic (h1.Username c.creds) (h1.Password c.creds)⟩ with
      | .error _ => some .catalogCall
      | .ok _ => none

/-- The Catalog source of `exampleList`. -/
def exampleCatalog : catalog :=
  { registry := "registry.example.com:5000"
    conf := { ClientID := "user", TokenURL := "https://registry.example.com:5000/token" }
    bearer := false
    creds := 0 }

/-- Collaborators that all succeed: the refresh rotates the password to `rotated`, the
catalog answers `a/b`, `c/d`. -/
def exampleRemote : Remote :=
  { NewRegistry := fun s => .ok ⟨s, false⟩
    Refresh := fun c => (none, { c with password := "rotated" })
    CatalogPage := fun _ => .ok ["a/b", "c/d"]
    PasswordCredentialsToken := fun _ => .ok "token" }

/-- Collaborators of which the credentials refresh fails with `boom`. -/
def badRefreshRemote : Remote :=
  { exampleRemote with Refresh := fun c => (some ⟨"boom"⟩, c) }

/-- Collaborators of which the catalog call and the token exchange fail with `boom`. -/
def badCatalogRemote : Remote :=
  { exampleRemote with
    CatalogPage := fun _ => .error ⟨"boom"⟩
    PasswordCredentialsToken := fun _ => .error ⟨"boom"⟩ }

/-- The error of a request to the registry whose transport fails with `boom`, as
`net/http` reports it. -/
def transportError : GoError :=
  ⟨"Get \"https://registry.example.com:5000/v2/\": boom"⟩

/-- Collaborators of which the credentials refresh, itself a request to the registry, fails
with `transportError`. -/
def refreshDownRemote : Remote :=
  { exampleRemote with Refresh := fun c => (some transportError, c) }

/-- Collaborators of which the catalog call fails with `transportError`. -/
def catalogDownRemote : Remote :=
  { exampleRemote with CatalogPage := fun _ => .error transportError }

/-- A world whose source always fails and whose clock reads 1000, 1001, ... -/
def deadWorld : World :=
  { clock := fun n => 1000 + n
    ticks := 0
    retrieve := fun _ => .error ⟨"connection refused"⟩
    calls := 0 }

/-! ## Properties of `RepoList.Get` -/

theorem Get_loop_acc (filter : regexp.Regexp) (raw acc : List String) :
    raw.foldl (fun repos r => if filter.MatchString r then repos ++ [r] else repos) acc
      = acc ++ raw.filter fun r => filter.MatchString r := by
  induction raw generalizing acc with
  | nil => simp
  | cons r rest ih =>
    by_cases hr : filter.MatchString r = true
    · simp [List.foldl_cons, List.filter_cons, hr, ih]
    · simp [List.foldl_cons, List.filter_cons, hr, ih]

theorem Get_loop_eq_filter (filter : regexp.Regexp) (raw : List String) :
    RepoList.Get.loop filter raw = raw.filter fun r => filter.MatchString r := by
  unfold RepoList.Get.loop
  rw [Get_loop_acc]
  rfl

theorem Get_hit (l : RepoList) (w : World)
    (hvalid : time.Before (w.clock w.ticks) l.expiry = true) :
    l.Get w = (.ok l.repos, l, { w with ticks := w.ticks + 1 }) := by
  simp [RepoList.Get, time.Now, hvalid]

theorem Get_miss_error (l : RepoList) (w : World) (e : GoError)
    (hstale : time.Before (w.clock w.ticks) l.expiry = false)
    (hret : w.retrieve w.calls = .error e) :
    l.Get w = (.error e, l, { w with ticks := w.ticks + 1, calls := w.calls + 1 }) := by
  simp [RepoList.Get, time.Now, ListSource.Retrieve, hstale, hret]

theorem Get_miss_ok (l : RepoList) (w : World) (raw : List String)
    (hstale : time.Before (w.clock w.ticks) l.expiry = false)
    (hret : w.retrieve w.calls = .ok raw) :
    l.Get w =
      (.ok (raw.filter fun r => l.filter.MatchString r),
       { l with
          expiry := w.clock (w.ticks + 1) + 10 * time.Minute
          repos := raw.filter fun r => l.filter.MatchString r },
       { w with ticks := w.ticks + 2, calls := w.calls + 1 }) := by
  simp [RepoList.Get, time.Now, ListSource.Retrieve, hstale, hret, Get_loop_eq_filter,
    time.Add]

/-- C1: when the clock reading is not before the stored expiry and `Retrieve` succeeds with
`raw`, `Get` returns `raw` filtered by the compiled filter: exactly the matching entries, with
their multiplicity and in their original order. -/
theorem Get_returns_filtered_raw (l : RepoList) (w : World) (raw : List String)
    (hstale : time.Before (w.clock w.ticks) l.expiry = false)
    (hret : w.retrieve w.calls = .ok raw) :
    (l.Get w).1 = .ok (raw.filter fun r => l.filter.MatchString r) := by
  rw [Get_miss_ok l w raw hstale hret]

/-- Instance of C1: with the filter `a/.*` and the raw sequence `a/b`, `c/d`, `a/x`, `Get`
returns `a/b`, `a/x`. -/
theorem Get_returns_filtered_raw_witness :
    CompileRegex "a/.*" = .ok exampleList.filter ∧
    time.Before (exampleWorld.clock exampleWorld.ticks) exampleList.expiry = false ∧
    exampleWorld.retrieve exampleWorld.calls = .ok ["a/b", "c/d", "a/x"] ∧
    (exampleList.Get exampleWorld).1 = .ok ["a/b", "a/x"] :=
  ⟨by decide, by decide, rfl,
    (Get_returns_filtered_raw exampleList exampleWorld ["a/b", "c/d", "a/x"]
      (by decide) rfl).trans (by decide)⟩

/-- C2: when the clock reading is strictly before the stored expiry, `Get` returns the cached
sequence without error, makes no call of `Retrieve`, and leaves the `RepoList` (so its cached
sequence and its expiry) unchanged. -/
theorem Get_cache_hit (l : RepoList) (w : World)
    (hvalid : time.Before (w.clock w.ticks) l.expiry = true) :
    (l.Get w).1 = .ok l.repos ∧
    (l.Get w).2.2.calls = w.calls ∧
    (l.Get w).2.1.repos = l.repos ∧
    (l.Get w).2.1.expiry = l.expiry ∧
    (l.Get w).2.1 = l := by
  rw [Get_hit l w hvalid]
  exact ⟨rfl, rfl, rfl, rfl, rfl⟩

/-- Instance of C2: a list cached until 5000 and read at 1000. -/
theorem Get_cache_hit_witness :
    time.Before (exampleWorld.clock exampleWorld.ticks)
      ({ exampleList with repos := ["a/b"], expiry := 5000 } : RepoList).expiry = true ∧
    (({ exampleList with repos := ["a/b"], expiry := 5000 } : RepoList).Get exampleWorld).1
      = .ok ["a/b"] ∧
    (({ exampleList with repos := ["a/b"], expiry := 5000 } : RepoList).Get
      exampleWorld).2.2.calls = 0 :=
  have h := Get_cache_hit { exampleList with repos := ["a/b"], expiry := 5000 } exampleWorld
    (by decide)
  ⟨by decide, h.1, h.2.1⟩

/-- C3: when the cache is not valid and `Retrieve` fails with `e`, `Get` returns `e` and no
list, the cached sequence and the expiry are unchanged, and a later `Get` whose `Retrieve`
succeeds (read at a time not before the expiry) replaces the cache by the filtered result. -/
theorem Get_retrieve_error (l : RepoList) (w : World) (e : GoError)
    (hstale : time.Before (w.clock w.ticks) l.expiry = false)
    (hret : w.retrieve w.calls = .error e) :
    (l.Get w).1 = .error e ∧
    (l.Get w).2.1.repos = l.repos ∧
    (l.Get w).2.1.expiry = l.expiry ∧
    ∀ (w2 : World) (raw : List String),
      time.Before (w2.clock w2.ticks) l.expiry = false →
      w2.retrieve w2.calls = .ok raw →
      (((l.Get w).2.1).Get w2).1 = .ok (raw.filter fun r => l.filter.MatchString r) ∧
      (((l.Get w).2.1).Get w2).2.1.repos = raw.filter fun r => l.filter.MatchString r := by
  rw [Get_miss_error l w e hstale hret]
  refine ⟨rfl, rfl, rfl, ?_⟩
  intro w2 raw h2 hret2
  rw [Get_miss_ok l w2 raw h2 hret2]
  exact ⟨rfl, rfl⟩

/-- Instance of C3: the first retrieval fails, the second call of `Get` succeeds. -/
theorem Get_retrieve_error_witness :
    time.Before (failingWorld.clock failingWorld.ticks) exampleList.expiry = false ∧
    failingWorld.retrieve failingWorld.calls = .error ⟨"connection refused"⟩ ∧
    (exampleList.Get failingWorld).1 = .error ⟨"connection refused"⟩ ∧
    (exampleList.Get failingWorld).2.1.repos = [] ∧
    (exampleList.Get failingWorld).2.1.expiry = 0 ∧
    (((exampleList.Get failingWorld).2.1).Get (exampleList.Get failingWorld).2.2).1
      = .ok ["a/b", "a/x"] :=
  have h := Get_retrieve_error exampleList failingWorld ⟨"connection refused"⟩ (by decide) rfl
  ⟨by decide, rfl, h.1, h.2.1, h.2.2.1,
    ((h.2.2.2 (exampleList.Get failingWorld).2.2 ["a/b", "c/d", "a/x"]
      (by decide) (by decide)).1).trans (by decide)⟩

/-- C4: starting from a cache that is not valid, with a source whose `Retrieve` always
succeeds: the first `Get` calls `Retrieve` once; a second `Get` read before the expiry set by
the first makes no further call and returns the same sequence; a third `Get` read at or after
that expiry makes the second call of `Retrieve`. -/
theorem Get_twice_within_window (l : RepoList) (w : World)
    (hstale : time.Before (w.clock w.ticks) l.expiry = false)
    (hsrc : ∀ n, ∃ raw, w.retrieve n = .ok raw) :
    (l.Get w).2.2.calls = w.calls + 1 ∧
    (time.Before ((l.Get w).2.2.clock (l.Get w).2.2.ticks) (l.Get w).2.1.expiry = true →
      (((l.Get w).2.1).Get (l.Get w).2.2).2.2.calls = w.calls + 1 ∧
      (((l.Get w).2.1).Get (l.Get w).2.2).1 = (l.Get w).1 ∧
      (time.Before
          ((((l.Get w).2.1).Get (l.Get w).2.2).2.2.clock
            (((l.Get w).2.1).Get (l.Get w).2.2).2.2.ticks)
          (l.Get w).2.1.expiry = false →
        (((((l.Get w).2.1).Get (l.Get w).2.2).2.1).Get
          (((l.Get w).2.1).Get (l.Get w).2.2).2.2).2.2.calls = w.calls + 2)) := by
  obtain ⟨raw, hraw⟩ := hsrc w.calls
  rw [Get_miss_ok l w raw hstale hraw]
  refine ⟨rfl, ?_⟩
  intro h2
  rw [Get_hit _ _ h2]
  refine ⟨rfl, rfl, ?_⟩
  intro h3
  obtain ⟨raw3, hraw3⟩ := hsrc (w.calls + 1)
  rw [Get_miss_ok _ _ raw3 h3 hraw3]

/-- Instance of C4: three calls of `Get` read at 1000, at 1002 and at 10^12 nanoseconds. -/
theorem Get_twice_within_window_witness :
    (exampleList.Get exampleWorld).2.2.calls = 1 ∧
    (((exampleList.Get exampleWorld).2.1).Get (exampleList.Get exampleWorld).2.2).2.2.calls
      = 1 ∧
    (((exampleList.Get exampleWorld).2.1).Get (exampleList.Get exampleWorld).2.2).1
      = (exampleList.Get exampleWorld).1 ∧
    (((((exampleList.Get exampleWorld).2.1).Get (exampleList.Get exampleWorld).2.2).2.1).Get
      (((exampleList.Get exampleWorld).2.1).Get
        (exampleList.Get exampleWorld).2.2).2.2).2.2.calls = 2 :=
  have h := Get_twice_within_window exampleList exampleWorld (by decide)
    (fun _ => ⟨["a/b", "c/d", "a/x"], rfl⟩)
  have h2 := h.2 (by decide)
  ⟨h.1, h2.1, h2.2.1, h2.2.2 (by decide)⟩

/-- C5: after a `Get` that misses the cache and whose `Retrieve` succeeds, the stored expiry
is the clock reading taken after `Retrieve` returned plus 600000000000 nanoseconds (10
minutes), whatever the previous expiry and the retrieved data. -/
theorem Get_sets_expiry (l : RepoList) (w : World) (raw : List String)
    (hstale : time.Before (w.clock w.ticks) l.expiry = false)
    (hret : w.retrieve w.calls = .ok raw) :
    (l.Get w).2.1.expiry
      = (time.Now (l.source.Retrieve (time.Now w).2).2).1 + 600000000000 ∧
    (l.Get w).2.1.expiry = w.clock (w.ticks + 1) + 10 * time.Minute := by
  rw [Get_miss_ok l w raw hstale hret]
  refine ⟨?_, rfl⟩
  simp [time.Now, ListSource.Retrieve, time.Minute, time.Second]

/-- Instance of C5: the retrieval returns at 1001 nanoseconds and nothing matches the
filter. -/
theorem Get_sets_expiry_witness :
    time.Before (exampleWorld.clock exampleWorld.ticks) exampleList.expiry = false ∧
    ({ exampleWorld with retrieve := fun _ => .ok ["c/d"] } : World).retrieve 0 = .ok ["c/d"] ∧
    (exampleList.Get { exampleWorld with retrieve := fun _ => .ok ["c/d"] }).2.1.repos = [] ∧
    (exampleList.Get { exampleWorld with retrieve := fun _ => .ok ["c/d"] }).2.1.expiry
      = 600000001001 :=
  ⟨by decide, rfl, by decide,
    (Get_sets_expiry exampleList { exampleWorld with retrieve := fun _ => .ok ["c/d"] }
      ["c/d"] (by decide) rfl).1.trans (by decide)⟩

theorem NewRepoList_zero_cache (registry filter : String) (creds : CredsPtr) (bearer : Bool)
    (copyOutcome : Option GoError) (h h1 : Heap) (l : RepoList)
    (hnew : NewRepoList registry filter creds bearer copyOutcome h = some (.ok l, h1)) :
    l.repos = [] ∧ l.expiry = 0 := by
  unfold NewRepoList at hnew
  split at hnew
  · simp at hnew
  · split at hnew
    · simp at hnew
    · split at hnew
      · simp at hnew
      · split at hnew
        · split at hnew
          · simp at hnew
          · simp only [Option.some.injEq, Prod.mk.injEq, Except.ok.injEq] at hnew
            obtain ⟨hl, -⟩ := hnew
            subst hl
            exact ⟨rfl, rfl⟩
        · simp only [Option.some.injEq, Prod.mk.injEq, Except.ok.injEq] at hnew
          obtain ⟨hl, -⟩ := hnew
          subst hl
          exact ⟨rfl, rfl⟩

theorem Get_keeps_matching (l : RepoList) (w : World)
    (hl : ∀ r ∈ l.repos, l.filter.MatchString r = true) :
    ∀ r ∈ (l.Get w).2.1.repos, (l.Get w).2.1.filter.MatchString r = true := by
  by_cases hvalid : time.Before (w.clock w.ticks) l.expiry = true
  · rw [Get_hit l w hvalid]; exact hl
  · have hstale : time.Before (w.clock w.ticks) l.expiry = false := by simpa using hvalid
    cases hret : w.retrieve w.calls with
    | error e => rw [Get_miss_error l w e hstale hret]; exact hl
    | ok raw =>
      rw [Get_miss_ok l w raw hstale hret]
      intro r hr
      exact (List.mem_filter.mp hr).2

theorem Get_returns_cache (l : RepoList) (w : World) (xs : List String)
    (hok : (l.Get w).1 = .ok xs) : xs = (l.Get w).2.1.repos := by
  by_cases hvalid : time.Before (w.clock w.ticks) l.expiry = true
  · rw [Get_hit l w hvalid] at hok ⊢
    exact (Except.ok.inj hok).symm
  · have hstale : time.Before (w.clock w.ticks) l.expiry = false := by simpa using hvalid
    cases hret : w.retrieve w.calls with
    | error e => rw [Get_miss_error l w e hstale hret] at hok; cases hok
    | ok raw =>
      rw [Get_miss_ok l w raw hstale hret] at hok ⊢
      exact (Except.ok.inj hok).symm

/-- C6: in every state reachable from a `RepoList` returned by `NewRepoList` through calls
of `Get`, every cached name matches the compiled filter, and the sequence a successful `Get`
returns is the cached sequence held after that call. -/
theorem Reachable_cache_is_filtered (l : RepoList) (hl : Reachable l) :
    (∀ r ∈ l.repos, l.filter.MatchString r = true) ∧
    ∀ (w : World) (xs : List String), (l.Get w).1 = .ok xs → xs = (l.Get w).2.1.repos := by
  refine ⟨?_, fun w xs hok => Get_returns_cache l w xs hok⟩
  induction hl with
  | fresh registry filter creds bearer copyOutcome h h1 l hnew =>
    rw [(NewRepoList_zero_cache registry filter creds bearer copyOutcome h h1 l hnew).1]
    intro r hr
    cases hr
  | get l w _ ih => exact Get_keeps_matching l w ih

/-- Instance of C6: the state left by the first `Get` on a freshly built list. -/
theorem Reachable_cache_is_filtered_witness :
    Reachable (exampleList.Get exampleWorld).2.1 ∧
    (exampleList.Get exampleWorld).2.1.repos = ["a/b", "a/x"] ∧
    (∀ r ∈ (exampleList.Get exampleWorld).2.1.repos,
      (exampleList.Get exampleWorld).2.1.filter.MatchString r = true) :=
  have hr : Reachable (exampleList.Get exampleWorld).2.1 :=
    Reachable.get exampleList exampleWorld
      (Reachable.fresh "registry.example.com:5000" "a/.*" 0 false none exampleHeap exampleHeap
        exampleList (by decide))
  ⟨hr, by decide, (Reachable_cache_is_filtered (exampleList.Get exampleWorld).2.1 hr).1⟩

/-! ## Properties of `CompileRegex` -/

/-- C7: evaluation of `CompileRegex` on the filter `foo|bar`. The expression compiled is
`^foo|bar$`, in which each anchor binds to one branch of the alternation only, so the
compiled filter accepts `myfoo/bar` although neither the filter nor the compiled expression
matches that name from its first to its last character. The filter `foo` does reject
`myfoo/bar`. -/
theorem CompileRegex_alternation_escapes_anchors :
    CompileRegex.anchored "foo|bar" = "^foo|bar$" ∧
    (CompileRegex "foo|bar").toOption.map (fun re => re.MatchString "myfoo/bar") = some true ∧
    (regexp.Compile "foo|bar").toOption.map (fun re => re.matchesWhole "myfoo/bar")
      = some false ∧
    (CompileRegex "foo|bar").toOption.map (fun re => re.matchesWhole "myfoo/bar")
      = some false ∧
    (CompileRegex "foo").toOption.map (fun re => re.MatchString "myfoo/bar") = some false := by
  decide

theorem HasPrefix_iff_isPrefix (s pre : String) :
    strings.HasPrefix s pre = true ↔ pre.data <+: s.data := by
  unfold strings.HasPrefix
  exact List.isPrefixOf_iff_prefix

theorem HasSuffix_iff_isSuffix (s suf : String) :
    strings.HasSuffix s suf = true ↔ suf.data <:+ s.data := by
  unfold strings.HasSuffix
  exact List.isSuffixOf_iff_suffix

theorem HasPrefix_append_right (s t pre : String) (h : strings.HasPrefix s pre = true) :
    strings.HasPrefix (s ++ t) pre = true := by
  rw [HasPrefix_iff_isPrefix] at h ⊢
  rw [String.data_append]
  exact h.trans (List.prefix_append _ _)

theorem HasPrefix_self_append (pre t : String) :
    strings.HasPrefix (pre ++ t) pre = true := by
  rw [HasPrefix_iff_isPrefix, String.data_append]
  exact List.prefix_append _ _

theorem HasSuffix_append_self (s suf : String) :
    strings.HasSuffix (s ++ suf) suf = true := by
  rw [HasSuffix_iff_isSuffix, String.data_append]
  exact List.suffix_append _ _

theorem anchored_starts_with_caret (v : String) :
    strings.HasPrefix (CompileRegex.anchored v) "^" = true := by
  have h1 : strings.HasPrefix (if !strings.HasPrefix v "^" then "^" ++ v else v) "^"
      = true := by
    by_cases hp : strings.HasPrefix v "^" = true
    · simp [hp]
    · simp [hp, HasPrefix_self_append]
  unfold CompileRegex.anchored
  simp only
  generalize (if !strings.HasPrefix v "^" then "^" ++ v else v) = v1 at h1 ⊢
  by_cases hs : strings.HasSuffix v1 "$" = true
  · simpa [hs] using h1
  · simpa [hs] using HasPrefix_append_right v1 "$" "^" h1

theorem anchored_ends_with_dollar (v : String) :
    strings.HasSuffix (CompileRegex.anchored v) "$" = true := by
  unfold CompileRegex.anchored
  simp only
  generalize (if !strings.HasPrefix v "^" then "^" ++ v else v) = v1
  by_cases hs : strings.HasSuffix v1 "$" = true
  · simp [hs]
  · simpa [hs] using HasSuffix_append_self v1 "$"

theorem anchored_of_anchored (v : String)
    (hp : strings.HasPrefix v "^" = true) (hs : strings.HasSuffix v "$" = true) :
    CompileRegex.anchored v = v := by
  simp [CompileRegex.anchored, hp, hs]

theorem anchored_of_bare (v : String)
    (hp : strings.HasPrefix v "^" = false) (hs : strings.HasSuffix v "$" = false) :
    CompileRegex.anchored v = "^" ++ v ++ "$" := by
  have hs1 : strings.HasSuffix ("^" ++ v) "$" = false := by
    rw [← Bool.not_eq_true, HasSuffix_iff_isSuffix] at hs ⊢
    rw [String.data_append]
    intro hsuf
    have hd : ("^" : String).data = ['^'] := rfl
    rw [hd, List.singleton_append, List.suffix_cons_iff] at hsuf
    rcases hsuf with heq | hsuf
    · have hd2 : ("$" : String).data = ['$'] := rfl
      rw [hd2] at heq
      have hc : '$' = '^' := (List.cons.inj heq).1
      exact absurd hc (by decide)
    · exact hs hsuf
  simp [CompileRegex.anchored, hp, hs1]

/-- C8: the expression `CompileRegex` compiles is `v` with `^` prepended exactly when `v` does
not start with `^`, and then `$` appended exactly when the result does not end with `$`; for
a `v` with neither anchor it is `^` + `v` + `$`, so `CompileRegex v` and
`CompileRegex ("^" + v + "$")` compile the same expression and give the same result. -/
theorem CompileRegex_anchors_once (v : String) :
    CompileRegex v = regexp.Compile
      (if strings.HasSuffix (if strings.HasPrefix v "^" then v else "^" ++ v) "$" then
          (if strings.HasPrefix v "^" then v else "^" ++ v)
        else (if strings.HasPrefix v "^" then v else "^" ++ v) ++ "$") ∧
    (strings.HasPrefix v "^" = false → strings.HasSuffix v "$" = false →
      CompileRegex.anchored v = "^" ++ v ++ "$" ∧
      CompileRegex.anchored ("^" ++ v ++ "$") = "^" ++ v ++ "$" ∧
      CompileRegex v = regexp.Compile ("^" ++ v ++ "$") ∧
      CompileRegex ("^" ++ v ++ "$") = CompileRegex v) := by
  constructor
  · unfold CompileRegex CompileRegex.anchored
    by_cases hp : strings.HasPrefix v "^" = true
    · by_cases hs : strings.HasSuffix v "$" = true
      · simp [hp, hs]
      · simp [hp, hs]
    · by_cases hs : strings.HasSuffix ("^" ++ v) "$" = true
      · simp [hp, hs]
      · simp [hp, hs]
  · intro hp hs
    have h1 := anchored_of_bare v hp hs
    have h2 : CompileRegex.anchored ("^" ++ v ++ "$") = "^" ++ v ++ "$" := by
      have h := anchored_of_anchored (CompileRegex.anchored v)
        (anchored_starts_with_caret v) (anchored_ends_with_dollar v)
      rwa [h1] at h
    refine ⟨h1, h2, ?_, ?_⟩
    · unfold CompileRegex
      rw [h1]
    · unfold CompileRegex
      rw [h1, h2]

/-- Instance of C8: the filter `a/.*`. -/
theorem CompileRegex_anchors_once_witness :
    strings.HasPrefix "a/.*" "^" = false ∧ strings.HasSuffix "a/.*" "$" = false ∧
    CompileRegex.anchored "a/.*" = "^a/.*$" ∧
    CompileRegex "^a/.*$" = CompileRegex "a/.*" :=
  have h := (CompileRegex_anchors_once "a/.*").2 (by decide) (by decide)
  ⟨by decide, by decide, h.1, h.2.2.2⟩

/-- C9: the anchoring step of `CompileRegex` is idempotent on every string: applied to its
own output it returns that output, so compiling an already anchored filter gives the same
result; the empty string, `^` and `$` all become `^$`. -/
theorem CompileRegex_anchoring_idempotent (v : String) :
    CompileRegex.anchored (CompileRegex.anchored v) = CompileRegex.anchored v ∧
    CompileRegex (CompileRegex.anchored v) = CompileRegex v ∧
    CompileRegex.anchored "" = "^$" ∧
    CompileRegex.anchored "^" = "^$" ∧
    CompileRegex.anchored "$" = "^$" ∧
    CompileRegex.anchored "^$" = "^$" := by
  have h := anchored_of_anchored (CompileRegex.anchored v)
    (anchored_starts_with_caret v) (anchored_ends_with_dollar v)
  refine ⟨h, ?_, by decide, by decide, by decide, by decide⟩
  unfold CompileRegex
  rw [h]

/-! ## Properties of `NewRepoList` -/

theorem length_le_of_HasPrefix (s pre : String) (h : strings.HasPrefix s pre = true) :
    pre.length ≤ s.length := by
  rw [HasPrefix_iff_isPrefix] at h
  exact h.length_le

theorem scheme_total (registry : String) :
    ∃ insecure, NewRepoList.scheme registry = some (insecure, spec.schemeStripped registry) := by
  unfold NewRepoList.scheme spec.schemeStripped sliceFrom
  by_cases h1 : strings.HasPrefix registry "http://" = true
  · have hlen : 7 ≤ registry.length := length_le_of_HasPrefix registry "http://" h1
    exact ⟨true, by simp [h1, hlen]⟩
  · by_cases h2 : strings.HasPrefix registry "https://" = true
    · have hlen : 8 ≤ registry.length := length_le_of_HasPrefix registry "https://" h2
      exact ⟨false, by simp [h1, h2, hlen]⟩
    · exact ⟨false, by simp [h1, h2]⟩

theorem cut_colon_takeWhile (s : List Char) :
    (match strings.cut [':'] s with
      | none => s
      | some (a, _) => a) = s.takeWhile fun c => c ≠ ':' := by
  induction s with
  | nil => rfl
  | cons c t ih =>
    by_cases hc : c = ':'
    · subst hc
      simp [strings.cut, List.isPrefixOf]
    · have hne : (':' == c) = false := by
        simp only [beq_eq_false_iff_ne, ne_eq]
        exact fun h => hc h.symm
      simp only [strings.cut, List.isPrefixOf, hne, Bool.false_and, Bool.false_eq_true,
        if_false]
      rw [List.takeWhile_cons]
      simp only [ne_eq, hc, not_false_eq_true, decide_True, if_true]
      rw [← ih]
      cases strings.cut [':'] t with
      | none => rfl
      | some p => rfl

theorem server_total (reg : String) :
    NewRepoList.server reg = some (spec.beforeFirstColon reg) := by
  unfold NewRepoList.server strings.SplitN spec.beforeFirstColon
  have hsep : (":" : String) ≠ "" := by decide
  have hd : (":" : String).data = [':'] := rfl
  simp only [OfNat.ofNat_ne_zero, if_false, hsep, hd, strings.genSplit]
  rw [← cut_colon_takeWhile]
  cases strings.cut [':'] reg.data with
  | none => rfl
  | some p => rfl

theorem NewRepoList_source_kind (registry filter : String) (creds : CredsPtr) (bearer : Bool)
    (copyOutcome : Option GoError) (h h1 : Heap) (l : RepoList)
    (hnew : NewRepoList registry filter creds bearer copyOutcome h = some (.ok l, h1)) :
    l.source.isDockerhub
      = decide (spec.beforeFirstColon (spec.schemeStripped registry)
          = "registry.hub.docker.com") ∧
    l.source.isCatalog = !l.source.isDockerhub := by
  obtain ⟨insecure, hscheme⟩ := scheme_total registry
  unfold NewRepoList at hnew
  rw [hscheme] at hnew
  simp only [server_total] at hnew
  split at hnew
  · simp at hnew
  · split at hnew
    · rename_i hserver
      split at hnew
      · simp at hnew
      · simp only [Option.some.injEq, Prod.mk.injEq, Except.ok.injEq] at hnew
        obtain ⟨hl, -⟩ := hnew
        subst hl
        simp [hserver, newDockerhub, ListSource.isDockerhub, ListSource.isCatalog]
    · rename_i hserver
      simp only [Option.some.injEq, Prod.mk.injEq, Except.ok.injEq] at hnew
      obtain ⟨hl, -⟩ := hnew
      subst hl
      simp [hserver, newCatalog, ListSource.isDockerhub, ListSource.isCatalog]

theorem NewRepoList_succeeds (registry filter : String) (creds : CredsPtr) (bearer : Bool)
    (h : Heap) (rxf : regexp.Regexp) (hcomp : CompileRegex filter = .ok rxf) :
    ∃ l h1, NewRepoList registry filter creds bearer none h = some (.ok l, h1) := by
  obtain ⟨insecure, hscheme⟩ := scheme_total registry
  unfold NewRepoList
  rw [hcomp, hscheme]
  simp only [server_total]
  by_cases hserver : spec.beforeFirstColon (spec.schemeStripped registry)
      = "registry.hub.docker.com"
  · simp [hserver, auth.NewCredentialsFromBasic]
  · simp [hserver]

/-- C10: for every address, every filter that compiles and a credentials copy that can be
created, `NewRepoList` returns a `RepoList` whose source is the Index (DockerHub) variant if
and only if the part of the scheme-stripped address before its first colon is
`registry.hub.docker.com`, and the Catalog variant otherwise; any other successful call for
the same address, whatever its filter and credentials, binds the same variant. -/
theorem NewRepoList_source_choice (registry filter : String) (creds : CredsPtr) (bearer : Bool)
    (h : Heap) (rxf : regexp.Regexp) (hcomp : CompileRegex filter = .ok rxf) :
    ∃ l h1, NewRepoList registry filter creds bearer none h = some (.ok l, h1) ∧
      (l.source.isDockerhub = true ↔
        spec.beforeFirstColon (spec.schemeStripped registry) = "registry.hub.docker.com") ∧
      (l.source.isCatalog = true ↔
        spec.beforeFirstColon (spec.schemeStripped registry) ≠ "registry.hub.docker.com") ∧
      ∀ (filter2 : String) (creds2 : CredsPtr) (bearer2 : Bool) (copyOutcome2 : Option GoError)
        (h2 h3 : Heap) (l2 : RepoList),
        NewRepoList registry filter2 creds2 bearer2 copyOutcome2 h2 = some (.ok l2, h3) →
        l2.source.isDockerhub = l.source.isDockerhub ∧
        l2.source.isCatalog = l.source.isCatalog := by
  obtain ⟨l, h1, hnew⟩ := NewRepoList_succeeds registry filter creds bearer h rxf hcomp
  have hk := NewRepoList_source_kind registry filter creds bearer none h h1 l hnew
  refine ⟨l, h1, hnew, ?_, ?_, ?_⟩
  · rw [hk.1]; simp
  · rw [hk.2, hk.1]; simp
  · intro filter2 creds2 bearer2 copyOutcome2 h2 h3 l2 hnew2
    have hk2 := NewRepoList_source_kind registry filter2 creds2 bearer2 copyOutcome2 h2 h3 l2
      hnew2
    rw [hk2.2, hk2.1, hk.2, hk.1]
    exact ⟨rfl, rfl⟩

/-- Instance of C10: `https://registry.hub.docker.com:443` binds the Index source, and
`https://registry.hub.docker.com.example.org` binds the Catalog source. -/
theorem NewRepoList_source_choice_witness :
    CompileRegex "a/.*" = .ok exampleList.filter ∧
    (∃ l h1, NewRepoList "https://registry.hub.docker.com:443" "a/.*" 0 false none exampleHeap
        = some (.ok l, h1) ∧ l.source.isDockerhub = true) ∧
    (NewRepoList "https://registry.hub.docker.com.example.org" "a/.*" 0 false none
        exampleHeap).map (fun r => r.1.toOption.map fun l => l.source.isCatalog)
      = some (some true) :=
  have hc : CompileRegex "a/.*" = .ok exampleList.filter := by decide
  ⟨hc,
    (NewRepoList_source_choice "https://registry.hub.docker.com:443" "a/.*" 0 false exampleHeap
      exampleList.filter hc).elim fun l hl => hl.elim fun h1 hh =>
        ⟨l, h1, hh.1, hh.2.1.mpr (by decide)⟩,
    by decide⟩

/-! ## `NewRepoList`: scheme stripping and the constructor call -/

theorem NewRepoList_eq_sourceCall (registry filter : String) (creds : CredsPtr) (bearer : Bool)
    (copyOutcome : Option GoError) (h : Heap) :
    NewRepoList registry filter creds bearer copyOutcome h =
      match CompileRegex filter with
      | .error err => some (.error err, h)
      | .ok rxf =>
        match NewRepoList.sourceCall registry with
        | none => none
        | some c =>
          match c.run creds bearer copyOutcome h with
          | (.error err, h1) => some (.error err, h1)
          | (.ok src, h1) =>
            some (.ok { registry := registry, filter := rxf, repos := [], expiry := 0,
                        source := src }, h1) := by
  unfold NewRepoList NewRepoList.sourceCall SourceCall.run
  cases CompileRegex filter with
  | error err => rfl
  | ok rxf =>
    cases NewRepoList.scheme registry with
    | none => rfl
    | some p =>
      obtain ⟨insecure, reg⟩ := p
      dsimp only
      cases NewRepoList.server reg with
      | none => rfl
      | some server =>
        dsimp only
        by_cases hs : server = "registry.hub.docker.com"
        · simp only [hs, if_true, decide_True]
          cases copyOutcome with
          | none => rfl
          | some e => rfl
        · simp only [hs, if_false, decide_False, Bool.false_eq_true]

theorem sourceCall_total (registry : String) :
    ∃ insecure,
      NewRepoList.scheme registry = some (insecure, spec.schemeStripped registry) ∧
      NewRepoList.sourceCall registry =
        some { dockerhub := decide (spec.beforeFirstColon (spec.schemeStripped registry)
                 = "registry.hub.docker.com"),
               reg := spec.schemeStripped registry, insecure := insecure } := by
  obtain ⟨insecure, hscheme⟩ := scheme_total registry
  refine ⟨insecure, hscheme, ?_⟩
  unfold NewRepoList.sourceCall
  rw [hscheme]
  simp only [server_total]

theorem scheme_http (h : String) : NewRepoList.scheme ("http://" ++ h) = some (true, h) := by
  have hp : strings.HasPrefix ("http://" ++ h) "http://" = true := HasPrefix_self_append _ _
  have hd : String.mk (("http://" ++ h).data.drop 7) = h := by
    rw [String.data_append]
    rfl
  have hl7 : ("http://" : String).length = 7 := rfl
  unfold NewRepoList.scheme sliceFrom
  simp [hp, hd, hl7]

theorem scheme_https (h : String) : NewRepoList.scheme ("https://" ++ h) = some (false, h) := by
  have hp : strings.HasPrefix ("https://" ++ h) "https://" = true := HasPrefix_self_append _ _
  have hn : strings.HasPrefix ("https://" ++ h) "http://" = false := by
    unfold strings.HasPrefix
    rw [String.data_append]
    rfl
  have hd : String.mk (("https://" ++ h).data.drop 8) = h := by
    rw [String.data_append]
    rfl
  have hl8 : ("https://" : String).length = 8 := rfl
  unfold NewRepoList.scheme sliceFrom
  simp [hp, hn, hd, hl8]

theorem sourceCall_of_scheme (registry reg : String) (insecure : Bool)
    (hs : NewRepoList.scheme registry = some (insecure, reg)) :
    NewRepoList.sourceCall registry =
      some { dockerhub := decide (spec.beforeFirstColon reg = "registry.hub.docker.com"),
             reg := reg, insecure := insecure } := by
  unfold NewRepoList.sourceCall
  rw [hs]
  simp only [server_total]

theorem run_registry (c : SourceCall) (creds : CredsPtr) (bearer : Bool)
    (copyOutcome : Option GoError) (h h1 : Heap) (src : ListSource)
    (hrun : c.run creds bearer copyOutcome h = (.ok src, h1)) :
    src.registry = c.reg ∧ src.isDockerhub = c.dockerhub := by
  unfold SourceCall.run at hrun
  by_cases hd : c.dockerhub = true
  · simp only [hd, if_true] at hrun
    cases copyOutcome with
    | none =>
      simp only [auth.NewCredentialsFromBasic, Prod.mk.injEq, Except.ok.injEq] at hrun
      rw [← hrun.1, hd]
      exact ⟨rfl, rfl⟩
    | some e => simp [auth.NewCredentialsFromBasic] at hrun
  · simp only [hd, if_false, Prod.mk.injEq, Except.ok.injEq, Bool.false_eq_true] at hrun
    rw [← hrun.1]
    simp only [Bool.not_eq_true] at hd
    rw [hd]
    exact ⟨rfl, rfl⟩

theorem NewRepoList_ok_inv (registry filter : String) (creds : CredsPtr) (bearer : Bool)
    (copyOutcome : Option GoError) (h h1 : Heap) (l : RepoList)
    (hnew : NewRepoList registry filter creds bearer copyOutcome h = some (.ok l, h1)) :
    ∃ rxf c, CompileRegex filter = .ok rxf ∧ NewRepoList.sourceCall registry = some c ∧
      c.run creds bearer copyOutcome h = (.ok l.source, h1) ∧
      l = { registry := registry, filter := rxf, repos := [], expiry := 0,
            source := l.source } := by
  rw [NewRepoList_eq_sourceCall] at hnew
  cases hc : CompileRegex filter with
  | error err => rw [hc] at hnew; simp at hnew
  | ok rxf =>
    rw [hc] at hnew
    cases hsc : NewRepoList.sourceCall registry with
    | none => rw [hsc] at hnew; simp at hnew
    | some c =>
      rw [hsc] at hnew
      simp only at hnew
      cases hrun : c.run creds bearer copyOutcome h with
      | mk res h2 =>
        rw [hrun] at hnew
        cases res with
        | error err => simp at hnew
        | ok src =>
          simp only [Option.some.injEq, Prod.mk.injEq, Except.ok.injEq] at hnew
          obtain ⟨hl, hh⟩ := hnew
          subst hl
          subst hh
          exact ⟨rxf, c, rfl, rfl, hrun, rfl⟩

/-- C11: for every `h`, `NewRepoList` on `http://` + `h` and on `https://` + `h` calls the same
constructor with the same registry string `h`; the two calls differ only in the insecure flag,
true for `http://` and false for `https://`. With the same filter and credentials, when the
first returns a `RepoList` so does the second, with a source of the same variant holding the
same registry string and credentials, and the same filter, cache and expiry. -/
theorem NewRepoList_http_https_same_source (h filter : String) (creds : CredsPtr)
    (bearer : Bool) (copyOutcome : Option GoError) (heap : Heap) :
    (∃ d,
      NewRepoList.sourceCall ("http://" ++ h)
        = some { dockerhub := d, reg := h, insecure := true } ∧
      NewRepoList.sourceCall ("https://" ++ h)
        = some { dockerhub := d, reg := h, insecure := false }) ∧
    ∀ (l1 : RepoList) (h1 : Heap),
      NewRepoList ("http://" ++ h) filter creds bearer copyOutcome heap = some (.ok l1, h1) →
      ∃ l2, NewRepoList ("https://" ++ h) filter creds bearer copyOutcome heap
          = some (.ok l2, h1) ∧
        l2.source.isDockerhub = l1.source.isDockerhub ∧
        l1.source.registry = h ∧ l2.source.registry = h ∧
        l2.source.creds = l1.source.creds ∧
        l2.filter = l1.filter ∧ l2.repos = l1.repos ∧ l2.expiry = l1.expiry ∧
        (l1.source.isCatalog = true → l2.source = l1.source) ∧
        (∀ d1, l1.source = .dockerhub d1 →
          d1.insecure = true ∧ l2.source = .dockerhub { d1 with insecure := false }) := by
  have hc1 := sourceCall_of_scheme ("http://" ++ h) h true (scheme_http h)
  have hc2 := sourceCall_of_scheme ("https://" ++ h) h false (scheme_https h)
  refine ⟨⟨_, hc1, hc2⟩, ?_⟩
  intro l1 h1 hnew
  rw [NewRepoList_eq_sourceCall, hc1] at hnew
  rw [NewRepoList_eq_sourceCall, hc2]
  cases hcomp : CompileRegex filter with
  | error err => rw [hcomp] at hnew; simp at hnew
  | ok rxf =>
    rw [hcomp] at hnew
    by_cases hd : spec.beforeFirstColon h = "registry.hub.docker.com"
    · cases copyOutcome with
      | some e => simp [SourceCall.run, hd, auth.NewCredentialsFromBasic] at hnew
      | none =>
        simp only [SourceCall.run, hd, decide_True, if_true, auth.NewCredentialsFromBasic,
          Option.some.injEq, Prod.mk.injEq, Except.ok.injEq] at hnew ⊢
        obtain ⟨hl, hh⟩ := hnew
        subst hl
        subst hh
        refine ⟨_, ⟨rfl, rfl⟩, rfl, rfl, rfl, rfl, rfl, rfl, rfl, ?_, ?_⟩
        · intro hcat
          simp [newDockerhub, ListSource.isCatalog] at hcat
        · intro d1 hd1
          simp only [newDockerhub, ListSource.dockerhub.injEq] at hd1 ⊢
          subst hd1
          exact ⟨rfl, rfl⟩
    · simp only [SourceCall.run, hd, decide_False, if_false, Bool.false_eq_true,
        Option.some.injEq, Prod.mk.injEq, Except.ok.injEq] at hnew ⊢
      obtain ⟨hl, hh⟩ := hnew
      subst hl
      subst hh
      refine ⟨_, ⟨rfl, rfl⟩, rfl, rfl, rfl, rfl, rfl, rfl, rfl, ?_, ?_⟩
      · intro _
        rfl
      · intro d1 hd1
        simp [newCatalog] at hd1

/-- Instance of C11: `http://registry.hub.docker.com` and `https://registry.hub.docker.com`. -/
theorem NewRepoList_http_https_same_source_witness :
    NewRepoList.sourceCall "http://registry.hub.docker.com"
      = some { dockerhub := true, reg := "registry.hub.docker.com", insecure := true } ∧
    NewRepoList.sourceCall "https://registry.hub.docker.com"
      = some { dockerhub := true, reg := "registry.hub.docker.com", insecure := false } ∧
    ∃ l2, NewRepoList "https://registry.hub.docker.com" "a/.*" 0 false none exampleHeap
        = some (.ok l2, { creds := [⟨"user", "secret"⟩, ⟨"user", "secret"⟩] }) ∧
      l2.source.isDockerhub = true ∧ l2.source.registry = "registry.hub.docker.com" :=
  have h := (NewRepoList_http_https_same_source "registry.hub.docker.com" "a/.*" 0 false none
    exampleHeap).2
    { registry := "http://registry.hub.docker.com", filter := exampleList.filter, repos := [],
      expiry := 0, source := newDockerhub "registry.hub.docker.com" true 1 }
    { creds := [⟨"user", "secret"⟩, ⟨"user", "secret"⟩] } (by decide)
  ⟨by decide, by decide, h.elim fun l2 hl2 => ⟨l2, hl2.1, hl2.2.1.trans (by decide), hl2.2.2.2.1⟩⟩

theorem NewRepoList_eq_NewRepoListWith (registry filter : String) (creds : CredsPtr)
    (bearer : Bool) (copyOutcome : Option GoError) (h : Heap) :
    NewRepoList registry filter creds bearer copyOutcome h
      = NewRepoListWith regexp.Compile registry filter creds bearer copyOutcome h :=
  rfl

theorem NewRepoListWith_eq_sourceCall (compile : String → Except GoError regexp.Regexp)
    (registry filter : String) (creds : CredsPtr) (bearer : Bool)
    (copyOutcome : Option GoError) (h : Heap) :
    NewRepoListWith compile registry filter creds bearer copyOutcome h =
      match compile (CompileRegex.anchored filter) with
      | .error err => some (.error err, h)
      | .ok rxf =>
        match NewRepoList.sourceCall registry with
        | none => none
        | some c =>
          match c.run creds bearer copyOutcome h with
          | (.error err, h1) => some (.error err, h1)
          | (.ok src, h1) =>
            some (.ok { registry := registry, filter := rxf, repos := [], expiry := 0,
                        source := src }, h1) := by
  unfold NewRepoListWith CompileRegexWith NewRepoList.sourceCall SourceCall.run
  cases compile (CompileRegex.anchored filter) with
  | error err => rfl
  | ok rxf =>
    cases NewRepoList.scheme registry with
    | none => rfl
    | some p =>
      obtain ⟨insecure, reg⟩ := p
      dsimp only
      cases NewRepoList.server reg with
      | none => rfl
      | some server =>
        dsimp only
        by_cases hs : server = "registry.hub.docker.com"
        · simp only [hs, if_true, decide_True]
          cases copyOutcome with
          | none => rfl
          | some e => rfl
        · simp only [hs, if_false, decide_False, Bool.false_eq_true]

/-- C12: with the regex compiler as a parameter. If the anchored filter does not compile,
`NewRepoList` returns the compile error and no `RepoList`, for every address and credentials,
and the heap is left as it was (no credentials copy, no source is built). If it compiles,
every `RepoList` returned holds the compiled filter, an empty cache and the zero expiry; one
is returned whenever the credentials copy can be created, and the only error that can be
returned is that of the credentials copy. -/
theorem NewRepoList_filter_compile (compile : String → Except GoError regexp.Regexp)
    (registry filter : String) (creds : CredsPtr) (bearer : Bool)
    (copyOutcome : Option GoError) (h : Heap) :
    (∀ e, compile (CompileRegex.anchored filter) = .error e →
      NewRepoListWith compile registry filter creds bearer copyOutcome h
        = some (.error e, h)) ∧
    (∀ rxf, compile (CompileRegex.anchored filter) = .ok rxf →
      (∀ l h1,
        NewRepoListWith compile registry filter creds bearer copyOutcome h
          = some (.ok l, h1) →
        l.filter = rxf ∧ l.repos = [] ∧ l.expiry = 0) ∧
      (copyOutcome = none →
        ∃ l h1, NewRepoListWith compile registry filter creds bearer copyOutcome h
          = some (.ok l, h1)) ∧
      (∀ e h1,
        NewRepoListWith compile registry filter creds bearer copyOutcome h
          = some (.error e, h1) →
        copyOutcome = some e)) := by
  obtain ⟨insecure, -, hsc⟩ := sourceCall_total registry
  rw [NewRepoListWith_eq_sourceCall, hsc]
  constructor
  · intro e he
    rw [he]
  · intro rxf hrxf
    rw [hrxf]
    simp only [SourceCall.run]
    by_cases hd : spec.beforeFirstColon (spec.schemeStripped registry)
        = "registry.hub.docker.com"
    · cases copyOutcome with
      | none =>
        simp only [hd, decide_True, if_true, auth.NewCredentialsFromBasic]
        refine ⟨?_, fun _ => ⟨_, _, rfl⟩, ?_⟩
        · intro l h1 hnew
          simp only [Option.some.injEq, Prod.mk.injEq, Except.ok.injEq] at hnew
          rw [← hnew.1]
          exact ⟨rfl, rfl, rfl⟩
        · intro e h1 hnew
          simp at hnew
      | some e0 =>
        simp only [hd, decide_True, if_true, auth.NewCredentialsFromBasic]
        refine ⟨?_, ?_, ?_⟩
        · intro l h1 hnew
          simp at hnew
        · intro hco
          cases hco
        · intro e h1 hnew
          simp only [Option.some.injEq, Prod.mk.injEq, Except.error.injEq] at hnew
          rw [hnew.1]
    · simp only [hd, decide_False, if_false, Bool.false_eq_true]
      refine ⟨?_, fun _ => ⟨_, _, rfl⟩, ?_⟩
      · intro l h1 hnew
        simp only [Option.some.injEq, Prod.mk.injEq, Except.ok.injEq] at hnew
        rw [← hnew.1]
        exact ⟨rfl, rfl, rfl⟩
      · intro e h1 hnew
        simp at hnew

/-- Instance of C12, with the modelled compiler: the filter `a(` does not compile, the filter
`a/.*` does. -/
theorem NewRepoList_filter_compile_witness :
    regexp.Compile (CompileRegex.anchored "a(")
      = .error ⟨"error parsing regexp: missing closing ): `^a($`"⟩ ∧
    NewRepoListWith regexp.Compile "registry.hub.docker.com" "a(" 0 false none exampleHeap
      = some (.error ⟨"error parsing regexp: missing closing ): `^a($`"⟩, exampleHeap) ∧
    NewRepoListWith regexp.Compile "registry.example.com:5000" "a/.*" 0 false none exampleHeap
      = some (.ok exampleList, exampleHeap) ∧
    exampleList.repos = [] ∧ exampleList.expiry = 0 :=
  have h := ((NewRepoList_filter_compile regexp.Compile "registry.example.com:5000" "a/.*" 0
    false none exampleHeap).2 exampleList.filter (by decide)).1 exampleList exampleHeap
    (by decide)
  ⟨by decide,
    (NewRepoList_filter_compile regexp.Compile "registry.hub.docker.com" "a(" 0 false none
      exampleHeap).1 ⟨"error parsing regexp: missing closing ): `^a($`"⟩ (by decide),
    by decide, h.2.1, h.2.2⟩

theorem run_dockerhub_insecure (c : SourceCall) (creds : CredsPtr) (bearer : Bool)
    (copyOutcome : Option GoError) (h h1 : Heap) (d : dockerhub)
    (hrun : c.run creds bearer copyOutcome h = (.ok (.dockerhub d), h1)) :
    d.insecure = c.insecure ∧ d.registry = c.reg := by
  unfold SourceCall.run at hrun
  by_cases hd : c.dockerhub = true
  · simp only [hd, if_true] at hrun
    cases copyOutcome with
    | none =>
      simp only [auth.NewCredentialsFromBasic, newDockerhub, Prod.mk.injEq, Except.ok.injEq,
        ListSource.dockerhub.injEq] at hrun
      rw [← hrun.1]
      exact ⟨rfl, rfl⟩
    | some e => simp [auth.NewCredentialsFromBasic] at hrun
  · simp [hd, newCatalog] at hrun

/-- C17: the scheme stripping of `NewRepoList`. An address starting with `http://` gives
insecure = true and the address without its first 7 characters; one starting with `https://`
gives insecure = false and the address without its first 8 characters; any other address
gives insecure = false and the address itself. Only one scheme is removed, the comparison is
case-sensitive, and the flag and registry string so obtained are the arguments of the
constructor call that builds the source of the returned `RepoList`. -/
theorem NewRepoList_scheme_stripping (a : String) :
    (strings.HasPrefix a "http://" = true →
      NewRepoList.scheme a = some (true, String.mk (a.data.drop 7))) ∧
    (strings.HasPrefix a "http://" = false → strings.HasPrefix a "https://" = true →
      NewRepoList.scheme a = some (false, String.mk (a.data.drop 8))) ∧
    (strings.HasPrefix a "http://" = false → strings.HasPrefix a "https://" = false →
      NewRepoList.scheme a = some (false, a)) ∧
    NewRepoList.scheme ("http://" ++ a) = some (true, a) ∧
    NewRepoList.scheme ("https://" ++ a) = some (false, a) ∧
    NewRepoList.scheme "http://https://x" = some (true, "https://x") ∧
    NewRepoList.scheme "HTTP://x" = some (false, "HTTP://x") ∧
    NewRepoList.scheme "Https://x" = some (false, "Https://x") ∧
    ∀ (filter : String) (creds : CredsPtr) (bearer : Bool) (copyOutcome : Option GoError)
      (h h1 : Heap) (l : RepoList),
      NewRepoList a filter creds bearer copyOutcome h = some (.ok l, h1) →
      ∃ c, NewRepoList.scheme a = some (c.insecure, c.reg) ∧
        NewRepoList.sourceCall a = some c ∧
        c.run creds bearer copyOutcome h = (.ok l.source, h1) ∧
        l.source.registry = c.reg ∧
        ∀ d, l.source = .dockerhub d → d.insecure = c.insecure := by
  refine ⟨?_, ?_, ?_, scheme_http a, scheme_https a, by decide, by decide, by decide, ?_⟩
  · intro h1
    have hlen : 7 ≤ a.length := length_le_of_HasPrefix a "http://" h1
    simp [NewRepoList.scheme, sliceFrom, h1, hlen]
  · intro h1 h2
    have hlen : 8 ≤ a.length := length_le_of_HasPrefix a "https://" h2
    simp [NewRepoList.scheme, sliceFrom, h1, h2, hlen]
  · intro h1 h2
    simp [NewRepoList.scheme, h1, h2]
  · intro filter creds bearer copyOutcome h h1 l hnew
    obtain ⟨rxf, c, -, hsc, hrun, -⟩ :=
      NewRepoList_ok_inv a filter creds bearer copyOutcome h h1 l hnew
    obtain ⟨insecure, hscheme, hsc2⟩ := sourceCall_total a
    rw [hsc] at hsc2
    have hc : c = _ := Option.some.inj hsc2
    refine ⟨c, ?_, hsc, hrun, (run_registry c creds bearer copyOutcome h h1 l.source hrun).1, ?_⟩
    · rw [hscheme, hc]
    · intro d hd
      rw [hd] at hrun
      exact (run_dockerhub_insecure c creds bearer copyOutcome h h1 d hrun).1

/-- Instance of C17: the address `http://registry.example.com:5000`. -/
theorem NewRepoList_scheme_stripping_witness :
    strings.HasPrefix "http://registry.example.com:5000" "http://" = true ∧
    NewRepoList.scheme "http://registry.example.com:5000"
      = some (true, "registry.example.com:5000") ∧
    strings.HasPrefix "registry.example.com:5000" "http://" = false ∧
    strings.HasPrefix "registry.example.com:5000" "https://" = false ∧
    NewRepoList.scheme "registry.example.com:5000"
      = some (false, "registry.example.com:5000") :=
  ⟨by decide,
    ((NewRepoList_scheme_stripping "http://registry.example.com:5000").1 (by decide)).trans
      (by decide),
    by decide, by decide,
    (NewRepoList_scheme_stripping "registry.example.com:5000").2.2.1 (by decide) (by decide)⟩

/-- C20: for every address the slicing and indexing of `NewRepoList` stay in range. The slice
`registry[7:]` (resp. `registry[8:]`) is taken only for an address of at least 7 (resp. 8)
characters and is defined; splitting the stripped address at the first colon yields one or
two elements; the host taken from it contains no colon and is a prefix of the stripped
address; and `NewRepoList` never panics. The empty address, a bare `http://` or `https://`
and an address without colon are instances. -/
theorem NewRepoList_in_range (registry : String) :
    (strings.HasPrefix registry "http://" = true →
      7 ≤ registry.length ∧ (sliceFrom registry 7).isSome = true) ∧
    (strings.HasPrefix registry "https://" = true →
      8 ≤ registry.length ∧ (sliceFrom registry 8).isSome = true) ∧
    (∃ insecure reg server,
      NewRepoList.scheme registry = some (insecure, reg) ∧
      1 ≤ (strings.SplitN reg ":" 2).length ∧ (strings.SplitN reg ":" 2).length ≤ 2 ∧
      NewRepoList.server reg = some server ∧
      ':' ∉ server.data ∧ server.data <+: reg.data) ∧
    (∀ (filter : String) (creds : CredsPtr) (bearer : Bool) (copyOutcome : Option GoError)
      (h : Heap), (NewRepoList registry filter creds bearer copyOutcome h).isSome = true) ∧
    NewRepoList.sourceCall "" = some { dockerhub := false, reg := "", insecure := false } ∧
    NewRepoList.sourceCall "http://"
      = some { dockerhub := false, reg := "", insecure := true } ∧
    NewRepoList.sourceCall "https://"
      = some { dockerhub := false, reg := "", insecure := false } ∧
    NewRepoList.sourceCall "localhost"
      = some { dockerhub := false, reg := "localhost", insecure := false } := by
  refine ⟨?_, ?_, ?_, ?_, by decide, by decide, by decide, by decide⟩
  · intro h1
    have hlen : 7 ≤ registry.length := length_le_of_HasPrefix registry "http://" h1
    exact ⟨hlen, by simp [sliceFrom, hlen]⟩
  · intro h2
    have hlen : 8 ≤ registry.length := length_le_of_HasPrefix registry "https://" h2
    exact ⟨hlen, by simp [sliceFrom, hlen]⟩
  · obtain ⟨insecure, hscheme⟩ := scheme_total registry
    have hserver := server_total (spec.schemeStripped registry)
    refine ⟨insecure, spec.schemeStripped registry, _, hscheme, ?_, ?_, hserver, ?_, ?_⟩
    · unfold NewRepoList.server at hserver
      cases hsplit : strings.SplitN (spec.schemeStripped registry) ":" 2 with
      | nil => rw [hsplit] at hserver; simp at hserver
      | cons x xs => simp
    · have hsep : (":" : String) ≠ "" := by decide
      unfold strings.SplitN
      simp only [OfNat.ofNat_ne_zero, if_false, hsep, strings.genSplit, List.length_map]
      cases strings.cut (":" : String).data (spec.schemeStripped registry).data with
      | none => simp
      | some p => simp
    · intro hmem
      have hp := List.mem_takeWhile_imp hmem
      simp at hp
    · exact List.takeWhile_prefix _
  · intro filter creds bearer copyOutcome h
    rw [NewRepoList_eq_sourceCall]
    obtain ⟨insecure, -, hsc⟩ := sourceCall_total registry
    rw [hsc]
    cases CompileRegex filter with
    | error err => rfl
    | ok rxf =>
      simp only
      cases hrun : SourceCall.run _ creds bearer copyOutcome h with
      | mk res h2 =>
        cases res with
        | error err => rfl
        | ok src => rfl

/-- Instance of C20: the bare scheme `http://`, and `https://` followed by a port only. -/
theorem NewRepoList_in_range_witness :
    strings.HasPrefix "http://" "http://" = true ∧
    7 ≤ ("http://" : String).length ∧ sliceFrom "http://" 7 = some "" ∧
    strings.HasPrefix "https://:5000" "https://" = true ∧
    8 ≤ ("https://:5000" : String).length ∧ NewRepoList.server ":5000" = some "" :=
  have h7 := (NewRepoList_in_range "http://").1 (by decide)
  have h8 := (NewRepoList_in_range "https://:5000").2.1 (by decide)
  ⟨by decide, h7.1, by decide, by decide, h8.1, by decide⟩

/-! ## Properties of the Catalog source -/

theorem Heap_modify_same (h : Heap) (p : CredsPtr) (f : auth.Credentials → auth.Credentials)
    (hp : p < h.creds.length) :
    (h.modify p f).creds.getD p ⟨"", ""⟩ = f (h.creds.getD p ⟨"", ""⟩) := by
  simp [Heap.modify, List.getD_eq_getElem?_getD, hp]

theorem Heap_modify_other (h : Heap) (p q : CredsPtr)
    (f : auth.Credentials → auth.Credentials) (hpq : p ≠ q) :
    (h.modify p f).creds.getD q ⟨"", ""⟩ = h.creds.getD q ⟨"", ""⟩ := by
  simp [Heap.modify, List.getD_eq_getElem?_getD, List.getElem?_set_ne hpq]

/-- C13: when the registry of a Catalog source parses and the credentials refresh succeeds,
`Retrieve` makes exactly one catalog call, for the first page (`last` empty) with page size
100, whose authenticator is Bearer with the password read after the refresh in bearer mode
and Basic with the username and password read after the refresh otherwise; what the call
answers is returned as it is. -/
theorem catalog_Retrieve_authenticator (c : catalog) (env : Remote) (h : Heap)
    (reg : gocrname.Registry)
    (hreg : env.NewRegistry c.registry = .ok reg)
    (href : (h.Refresh c.creds env.Refresh).1 = none) :
    (c.bearer = true →
      (c.Retrieve env h).2.2 =
        [⟨reg, "", 100, .Bearer ((h.Refresh c.creds env.Refresh).2.Password c.creds)⟩]) ∧
    (c.bearer = false →
      (c.Retrieve env h).2.2 =
        [⟨reg, "", 100, .Basic ((h.Refresh c.creds env.Refresh).2.Username c.creds)
          ((h.Refresh c.creds env.Refresh).2.Password c.creds)⟩]) ∧
    (∃ call, (c.Retrieve env h).2.2 = [call] ∧ call.target = reg ∧ call.last = "" ∧
      call.n = 100 ∧ (c.Retrieve env h).1 = env.CatalogPage call ∧
      ∀ ret, env.CatalogPage call = .ok ret → (c.Retrieve env h).1 = .ok ret) ∧
    (c.Retrieve env h).2.1 = (h.Refresh c.creds env.Refresh).2 ∧
    (c.creds < h.creds.length →
      (h.Refresh c.creds env.Refresh).2.Password c.creds
        = (env.Refresh (h.creds.getD c.creds ⟨"", ""⟩)).2.password) := by
  have hpair : h.Refresh c.creds env.Refresh = (none, (h.Refresh c.creds env.Refresh).2) := by
    rw [← href]
  have hret : c.Retrieve env h =
      match env.CatalogPage ⟨reg, "", 100,
          if c.bearer then .Bearer ((h.Refresh c.creds env.Refresh).2.Password c.creds)
          else .Basic ((h.Refresh c.creds env.Refresh).2.Username c.creds)
            ((h.Refresh c.creds env.Refresh).2.Password c.creds)⟩ with
      | .error err => (.error err, (h.Refresh c.creds env.Refresh).2,
          [⟨reg, "", 100,
            if c.bearer then .Bearer ((h.Refresh c.creds env.Refresh).2.Password c.creds)
            else .Basic ((h.Refresh c.creds env.Refresh).2.Username c.creds)
              ((h.Refresh c.creds env.Refresh).2.Password c.creds)⟩])
      | .ok ret => (.ok ret, (h.Refresh c.creds env.Refresh).2,
          [⟨reg, "", 100,
            if c.bearer then .Bearer ((h.Refresh c.creds env.Refresh).2.Password c.creds)
            else .Basic ((h.Refresh c.creds env.Refresh).2.Username c.creds)
              ((h.Refresh c.creds env.Refresh).2.Password c.creds)⟩]) := by
    unfold catalog.Retrieve
    rw [hreg]
    simp only
    rw [hpair]
  rw [hret]
  refine ⟨?_, ?_, ?_, ?_, ?_⟩
  · intro hb
    rw [hb]
    cases env.CatalogPage _ <;> rfl
  · intro hb
    rw [hb]
    cases env.CatalogPage _ <;> rfl
  · refine ⟨⟨reg, "", 100,
      if c.bearer then .Bearer ((h.Refresh c.creds env.Refresh).2.Password c.creds)
      else .Basic ((h.Refresh c.creds env.Refresh).2.Username c.creds)
        ((h.Refresh c.creds env.Refresh).2.Password c.creds)⟩, ?_, rfl, rfl, rfl, ?_, ?_⟩
    · cases env.CatalogPage _ <;> rfl
    · cases hcp : env.CatalogPage _ <;> rfl
    · intro ret hok
      rw [hok]
  · cases env.CatalogPage _ <;> rfl
  · intro hvalid
    unfold Heap.Refresh Heap.Password
    rw [Heap_modify_same h c.creds _ hvalid]

/-- Instance of C13: a source in basic mode whose refresh rotates the password. -/
theorem catalog_Retrieve_authenticator_witness :
    exampleRemote.NewRegistry exampleCatalog.registry
      = .ok ⟨"registry.example.com:5000", false⟩ ∧
    (exampleHeap.Refresh exampleCatalog.creds exampleRemote.Refresh).1 = none ∧
    exampleCatalog.bearer = false ∧
    (exampleCatalog.Retrieve exampleRemote exampleHeap).2.2 =
      [⟨⟨"registry.example.com:5000", false⟩, "", 100, .Basic "user" "rotated"⟩] ∧
    (exampleCatalog.Retrieve exampleRemote exampleHeap).1 = .ok ["a/b", "c/d"] :=
  have h := catalog_Retrieve_authenticator exampleCatalog exampleRemote exampleHeap
    ⟨"registry.example.com:5000", false⟩ rfl (by decide)
  ⟨rfl, by decide, rfl, (h.2.1 rfl).trans (by decide), by decide⟩

/-- C14: for every registry string `reg` and every value of the flags `insecure` and `bearer`,
the Catalog source built by `newCatalog` has the token endpoint `https://` + `reg` +
`/token`; `Ping` makes one token exchange, with that configuration and the current username
and password, and returns its error as it is, or no error when the exchange succeeds. For a
source built by `NewRepoList`, `reg` is the scheme-stripped address. -/
theorem catalog_Ping_token_endpoint (reg : String) (insecure bearer : Bool) (creds : CredsPtr)
    (h : Heap) (env : Remote) (c : catalog)
    (hc : newCatalog reg insecure bearer creds h = .catalog c) :
    c.conf.TokenURL = "https://" ++ reg ++ "/token" ∧
    (∀ h2 : Heap,
      (c.Ping env h2).2 = [⟨c.conf, h2.Username creds, h2.Password creds⟩] ∧
      (∀ e, env.PasswordCredentialsToken ⟨c.conf, h2.Username creds, h2.Password creds⟩
          = .error e → (c.Ping env h2).1 = some e) ∧
      (∀ t, env.PasswordCredentialsToken ⟨c.conf, h2.Username creds, h2.Password creds⟩
          = .ok t → (c.Ping env h2).1 = none)) ∧
    (∀ (registry filter : String) (copyOutcome : Option GoError) (h1 : Heap) (l : RepoList)
      (c2 : catalog),
      NewRepoList registry filter creds bearer copyOutcome h = some (.ok l, h1) →
      l.source = .catalog c2 →
      c2.conf.TokenURL = "https://" ++ spec.schemeStripped registry ++ "/token") := by
  simp only [newCatalog, ListSource.catalog.injEq] at hc
  subst hc
  refine ⟨rfl, ?_, ?_⟩
  · intro h2
    refine ⟨?_, ?_, ?_⟩
    · unfold catalog.Ping
      cases env.PasswordCredentialsToken _ <;> rfl
    · intro e he
      unfold catalog.Ping
      simp only at he ⊢
      rw [he]
    · intro t ht
      unfold catalog.Ping
      simp only at ht ⊢
      rw [ht]
  · intro registry filter copyOutcome h1 l c2 hnew hsrc
    obtain ⟨rxf, sc, -, hsc, hrun, -⟩ :=
      NewRepoList_ok_inv registry filter creds bearer copyOutcome h h1 l hnew
    obtain ⟨ins, -, hsc2⟩ := sourceCall_total registry
    rw [hsc] at hsc2
    have hc : sc = _ := Option.some.inj hsc2
    rw [hsrc, hc] at hrun
    unfold SourceCall.run at hrun
    split at hrun
    · split at hrun
      · simp at hrun
      · simp [newDockerhub] at hrun
    · simp only [newCatalog, Prod.mk.injEq, Except.ok.injEq, ListSource.catalog.injEq] at hrun
      rw [← hrun.1]

/-- Instance of C14: a source built with both flags set; the token exchange fails with
`boom`. -/
theorem catalog_Ping_token_endpoint_witness :
    newCatalog "registry.example.com:5000" true true 0 exampleHeap
      = .catalog { exampleCatalog with bearer := true } ∧
    ({ exampleCatalog with bearer := true } : catalog).conf.TokenURL
      = "https://registry.example.com:5000/token" ∧
    (({ exampleCatalog with bearer := true } : catalog).Ping badCatalogRemote exampleHeap).1
      = some ⟨"boom"⟩ :=
  have h := catalog_Ping_token_endpoint "registry.example.com:5000" true true 0 exampleHeap
    badCatalogRemote { exampleCatalog with bearer := true } (by decide)
  ⟨by decide, h.1.trans (by decide), (h.2.1 exampleHeap).2.1 ⟨"boom"⟩ rfl⟩

/-- Counterexample to C15: on a registry name the parser accepts, a credentials refresh that
fails with `transportError` and a catalog call that fails with `transportError` give the same
result of `Retrieve`, although the failing stages differ; and a refresh that fails with `boom`
gives the bare `boom`. -/
theorem catalog_Retrieve_stage_not_identified :
    refreshDownRemote.NewRegistry exampleCatalog.registry
      = .ok ⟨"registry.example.com:5000", false⟩ ∧
    catalogDownRemote.NewRegistry exampleCatalog.registry
      = .ok ⟨"registry.example.com:5000", false⟩ ∧
    catalog.failedStage exampleCatalog refreshDownRemote exampleHeap = some .credentials ∧
    catalog.failedStage exampleCatalog catalogDownRemote exampleHeap = some .catalogCall ∧
    (exampleCatalog.Retrieve refreshDownRemote exampleHeap).1 = .error transportError ∧
    (exampleCatalog.Retrieve catalogDownRemote exampleHeap).1 = .error transportError ∧
    (exampleCatalog.Retrieve refreshDownRemote exampleHeap).1
      = (exampleCatalog.Retrieve catalogDownRemote exampleHeap).1 ∧
    (exampleCatalog.Retrieve badRefreshRemote exampleHeap).1 = .error ⟨"boom"⟩ := by
  decide

/-- C15, amended: every failure of `catalog.Retrieve` is the failure of one of three
collaborators (the registry parser, the credentials refresh, the catalog call), and `Retrieve`
returns the error of that collaborator as it is, adding no error kind of its own; the stages
can be told apart only as far as the errors of the collaborators differ. -/
theorem catalog_Retrieve_propagates_errors (c : catalog) (env : Remote) (h : Heap)
    (e : GoError) :
    (env.NewRegistry c.registry = .error e →
      (c.Retrieve env h).1 = .error e ∧ (c.Retrieve env h).2.1 = h ∧
      (c.Retrieve env h).2.2 = []) ∧
    (∀ reg, env.NewRegistry c.registry = .ok reg →
      (h.Refresh c.creds env.Refresh).1 = some e →
      (c.Retrieve env h).1 = .error e ∧ (c.Retrieve env h).2.2 = []) ∧
    (∀ reg, env.NewRegistry c.registry = .ok reg →
      (h.Refresh c.creds env.Refresh).1 = none →
      env.CatalogPage ⟨reg, "", 100,
        if c.bearer then .Bearer ((h.Refresh c.creds env.Refresh).2.Password c.creds)
        else .Basic ((h.Refresh c.creds env.Refresh).2.Username c.creds)
          ((h.Refresh c.creds env.Refresh).2.Password c.creds)⟩ = .error e →
      (c.Retrieve env h).1 = .error e) ∧
    ((c.Retrieve env h).1 = .error e →
      env.NewRegistry c.registry = .error e ∨
      (h.Refresh c.creds env.Refresh).1 = some e ∨
      ∃ call, (c.Retrieve env h).2.2 = [call] ∧ env.CatalogPage call = .error e) := by
  refine ⟨?_, ?_, ?_, ?_⟩
  · intro hreg
    unfold catalog.Retrieve
    rw [hreg]
    exact ⟨rfl, rfl, rfl⟩
  · intro reg hreg href
    have hpair : h.Refresh c.creds env.Refresh
        = (some e, (h.Refresh c.creds env.Refresh).2) := by
      rw [← href]
    unfold catalog.Retrieve
    rw [hreg]
    simp only
    rw [hpair]
    exact ⟨rfl, rfl⟩
  · intro reg hreg href hcp
    have hpair : h.Refresh c.creds env.Refresh = (none, (h.Refresh c.creds env.Refresh).2) := by
      rw [← href]
    unfold catalog.Retrieve
    rw [hreg]
    simp only
    rw [hpair]
    simp only
    rw [hcp]
  · intro hres
    unfold catalog.Retrieve at hres ⊢
    cases hreg : env.NewRegistry c.registry with
    | error err =>
      rw [hreg] at hres
      left
      simp only [Except.error.injEq] at hres
      rw [hres]
    | ok reg =>
      rw [hreg] at hres
      right
      simp only at hres ⊢
      cases href : h.Refresh c.creds env.Refresh with
      | mk r h1 =>
        rw [href] at hres
        cases r with
        | some err =>
          left
          simp only [Except.error.injEq] at hres
          rw [hres]
        | none =>
          right
          simp only at hres ⊢
          cases hcp : env.CatalogPage ⟨reg, "", 100,
              if c.bearer then .Bearer (h1.Password c.creds)
              else .Basic (h1.Username c.creds) (h1.Password c.creds)⟩ with
          | error err =>
            rw [hcp] at hres
            simp only [Except.error.injEq] at hres
            exact ⟨_, rfl, by rw [hcp, hres]⟩
          | ok ret =>
            rw [hcp] at hres
            cases hres

/-- Instance of C15, amended: the refresh fails with `boom`; the catalog call fails with
`transportError`. -/
theorem catalog_Retrieve_propagates_errors_witness :
    badRefreshRemote.NewRegistry exampleCatalog.registry
      = .ok ⟨"registry.example.com:5000", false⟩ ∧
    (exampleHeap.Refresh exampleCatalog.creds badRefreshRemote.Refresh).1 = some ⟨"boom"⟩ ∧
    (exampleCatalog.Retrieve badRefreshRemote exampleHeap).1 = .error ⟨"boom"⟩ ∧
    (exampleCatalog.Retrieve badRefreshRemote exampleHeap).2.2 = [] ∧
    (exampleCatalog.Retrieve catalogDownRemote exampleHeap).1 = .error transportError :=
  have h2 := (catalog_Retrieve_propagates_errors exampleCatalog badRefreshRemote exampleHeap
    ⟨"boom"⟩).2.1 ⟨"registry.example.com:5000", false⟩ rfl (by decide)
  ⟨rfl, by decide, h2.1, h2.2,
    (catalog_Retrieve_propagates_errors exampleCatalog catalogDownRemote exampleHeap
      transportError).2.2.1 ⟨"registry.example.com:5000", false⟩ rfl (by decide) rfl⟩

/-! ## Credentials ownership -/

/-- C16: with the caller's credentials allocated in the heap. The Index source built by
`NewRepoList` holds a credentials object other than the caller's, created with the caller's
username and password; a change or a refresh of either object leaves the other as it was. The
Catalog source holds the caller's own object, and the heap is left as it was: a change made
through the caller's pointer is what the source reads. -/
theorem NewRepoList_credentials_ownership (registry filter : String) (creds : CredsPtr)
    (bearer : Bool) (copyOutcome : Option GoError) (h h1 : Heap) (l : RepoList)
    (hvalid : creds < h.creds.length)
    (hnew : NewRepoList registry filter creds bearer copyOutcome h = some (.ok l, h1)) :
    (∀ d, l.source = .dockerhub d →
      d.creds ≠ creds ∧
      h1.Username d.creds = h.Username creds ∧ h1.Password d.creds = h.Password creds ∧
      h1.Username creds = h.Username creds ∧ h1.Password creds = h.Password creds ∧
      (∀ f, (h1.modify d.creds f).Password creds = h1.Password creds ∧
        (h1.modify d.creds f).Username creds = h1.Username creds ∧
        (h1.modify creds f).Password d.creds = h1.Password d.creds ∧
        (h1.modify creds f).Username d.creds = h1.Username d.creds) ∧
      (∀ outcome, (h1.Refresh d.creds outcome).2.Password creds = h1.Password creds ∧
        (h1.Refresh creds outcome).2.Password d.creds = h1.Password d.creds)) ∧
    (∀ c, l.source = .catalog c →
      c.creds = creds ∧ h1 = h ∧
      (∀ f, (h1.modify creds f).Password c.creds
          = (f (h1.creds.getD creds ⟨"", ""⟩)).password) ∧
      (∀ outcome, (h1.Refresh creds outcome).2.Password c.creds
          = (outcome (h1.creds.getD creds ⟨"", ""⟩)).2.password)) := by
  obtain ⟨rxf, sc, -, -, hrun, -⟩ :=
    NewRepoList_ok_inv registry filter creds bearer copyOutcome h h1 l hnew
  unfold SourceCall.run at hrun
  constructor
  · intro d hd
    rw [hd] at hrun
    by_cases hdh : sc.dockerhub = true
    · simp only [hdh, if_true] at hrun
      cases copyOutcome with
      | some e => simp [auth.NewCredentialsFromBasic] at hrun
      | none =>
        simp only [auth.NewCredentialsFromBasic, newDockerhub, Prod.mk.injEq, Except.ok.injEq,
          ListSource.dockerhub.injEq] at hrun
        obtain ⟨hdd, hh1⟩ := hrun
        have hdc : d.creds = h.creds.length := by rw [← hdd]
        have hne : d.creds ≠ creds := by
          intro heq
          rw [hdc] at heq
          rw [← heq] at hvalid
          exact Nat.lt_irrefl _ hvalid
        have hcopy : h1.creds.getD d.creds ⟨"", ""⟩ = ⟨h.Username creds, h.Password creds⟩ := by
          rw [← hh1, hdc]
          simp [List.getD_eq_getElem?_getD]
        have horig : h1.creds.getD creds ⟨"", ""⟩ = h.creds.getD creds ⟨"", ""⟩ := by
          rw [← hh1]
          simp [List.getD_eq_getElem?_getD, List.getElem?_append_left hvalid]
        have hU : h1.Username d.creds = h.Username creds := by
          unfold Heap.Username at *
          rw [hcopy]
        have hP : h1.Password d.creds = h.Password creds := by
          unfold Heap.Password at *
          rw [hcopy]
        refine ⟨hne, hU, hP, ?_, ?_, ?_, ?_⟩
        · unfold Heap.Username
          rw [horig]
        · unfold Heap.Password
          rw [horig]
        · intro f
          unfold Heap.Password Heap.Username
          rw [Heap_modify_other h1 d.creds creds f hne,
            Heap_modify_other h1 creds d.creds f (Ne.symm hne)]
          exact ⟨rfl, rfl, rfl, rfl⟩
        · intro outcome
          unfold Heap.Refresh Heap.Password
          rw [Heap_modify_other h1 d.creds creds _ hne,
            Heap_modify_other h1 creds d.creds _ (Ne.symm hne)]
          exact ⟨rfl, rfl⟩
    · simp [hdh, newCatalog] at hrun
  · intro c hc
    rw [hc] at hrun
    by_cases hdh : sc.dockerhub = true
    · simp only [hdh, if_true] at hrun
      cases copyOutcome with
      | some e => simp [auth.NewCredentialsFromBasic] at hrun
      | none => simp [auth.NewCredentialsFromBasic, newDockerhub] at hrun
    · simp only [hdh, if_false, newCatalog, Prod.mk.injEq, Except.ok.injEq,
        ListSource.catalog.injEq, Bool.false_eq_true] at hrun
      obtain ⟨hcc, hh1⟩ := hrun
      have hcreds : c.creds = creds := by rw [← hcc]
      subst hh1
      refine ⟨hcreds, rfl, ?_, ?_⟩
      · intro f
        unfold Heap.Password
        rw [hcreds, Heap_modify_same h creds f hvalid]
      · intro outcome
        unfold Heap.Refresh Heap.Password
        rw [hcreds, Heap_modify_same h creds _ hvalid]

/-- Instance of C16: the Index source for `registry.hub.docker.com` holds the object at
address 1, a copy of the caller's object at address 0; a new password written to the copy
leaves the caller's password `secret`. -/
theorem NewRepoList_credentials_ownership_witness :
    (0 : CredsPtr) < exampleHeap.creds.length ∧
    NewRepoList "registry.hub.docker.com" "a/.*" 0 false none exampleHeap
      = some (.ok
          { registry := "registry.hub.docker.com", filter := exampleList.filter, repos := [],
            expiry := 0, source := newDockerhub "registry.hub.docker.com" false 1 },
          { creds := [⟨"user", "secret"⟩, ⟨"user", "secret"⟩] }) ∧
    (({ creds := [⟨"user", "secret"⟩, ⟨"user", "secret"⟩] } : Heap).modify 1
      fun c => { c with password := "other" }).Password 0 = "secret" :=
  have h := (NewRepoList_credentials_ownership "registry.hub.docker.com" "a/.*" 0 false none
    exampleHeap { creds := [⟨"user", "secret"⟩, ⟨"user", "secret"⟩] }
    { registry := "registry.hub.docker.com", filter := exampleList.filter, repos := [],
      expiry := 0, source := newDockerhub "registry.hub.docker.com" false 1 }
    (by decide) (by decide)).1 ⟨"registry.hub.docker.com", false, 1⟩ rfl
  ⟨by decide, by decide,
    ((h.2.2.2.2.2.1 fun c => { c with password := "other" }).1).trans (by decide)⟩

/-! ## Number of retrievals of `Get` -/

theorem Get_retrieves_calls (l : RepoList) (w : World) :
    (time.Before (w.clock w.ticks) l.expiry = true → (l.Get w).2.2.calls = w.calls) ∧
    (time.Before (w.clock w.ticks) l.expiry = false → (l.Get w).2.2.calls = w.calls + 1) := by
  constructor
  · intro hvalid
    rw [Get_hit l w hvalid]
  · intro hstale
    cases hret : w.retrieve w.calls with
    | error e => rw [Get_miss_error l w e hstale hret]
    | ok raw => rw [Get_miss_ok l w raw hstale hret]

/-- C18: a call of `Get` makes at most one call of `Retrieve`, also when that call fails, and
makes exactly one if and only if the clock reading is not strictly before the stored expiry;
a `Get` read at a time equal to the expiry retrieves. -/
theorem Get_retrieves_at_most_once (l : RepoList) (w : World) :
    w.calls ≤ (l.Get w).2.2.calls ∧ (l.Get w).2.2.calls ≤ w.calls + 1 ∧
    ((l.Get w).2.2.calls = w.calls + 1 ↔ time.Before (w.clock w.ticks) l.expiry = false) ∧
    ((l.Get w).2.2.calls = w.calls ↔ time.Before (w.clock w.ticks) l.expiry = true) ∧
    (∀ e, time.Before (w.clock w.ticks) l.expiry = false → w.retrieve w.calls = .error e →
      (l.Get w).2.2.calls = w.calls + 1) ∧
    (w.clock w.ticks = l.expiry → (l.Get w).2.2.calls = w.calls + 1) := by
  have hkey : (l.Get w).2.2.calls
      = if time.Before (w.clock w.ticks) l.expiry then w.calls else w.calls + 1 := by
    by_cases hvalid : time.Before (w.clock w.ticks) l.expiry = true
    · rw [Get_hit l w hvalid]
      simp [hvalid]
    · have hstale : time.Before (w.clock w.ticks) l.expiry = false := by simpa using hvalid
      cases hret : w.retrieve w.calls with
      | error e => rw [Get_miss_error l w e hstale hret]; simp [hstale]
      | ok raw => rw [Get_miss_ok l w raw hstale hret]; simp [hstale]
  rw [hkey]
  by_cases hvalid : time.Before (w.clock w.ticks) l.expiry = true
  · refine ⟨by simp [hvalid], by simp [hvalid], by simp [hvalid], by simp [hvalid], ?_, ?_⟩
    · intro e hstale
      rw [hvalid] at hstale
      cases hstale
    · intro heq
      rw [heq] at hvalid
      simp [time.Before] at hvalid
  · have hstale : time.Before (w.clock w.ticks) l.expiry = false := by simpa using hvalid
    refine ⟨by simp [hstale], by simp [hstale], by simp [hstale], by simp [hstale], ?_, ?_⟩
    · intro e _ _
      simp [hstale]
    · intro _
      simp [hstale]

/-- Instance of C18: a `Get` read at 1000 on a list whose expiry is 1000. -/
theorem Get_retrieves_at_most_once_witness :
    exampleWorld.clock exampleWorld.ticks
      = ({ exampleList with expiry := 1000 } : RepoList).expiry ∧
    (({ exampleList with expiry := 1000 } : RepoList).Get exampleWorld).2.2.calls = 1 :=
  ⟨by decide,
    (Get_retrieves_at_most_once { exampleList with expiry := 1000 } exampleWorld).2.2.2.2.2
      (by decide)⟩

theorem GetN_all_failed (k : Nat) (l : RepoList) (w : World)
    (hexp : l.expiry = 0) (hclock : ∀ n, 0 ≤ w.clock n)
    (hfail : ∀ n, w.calls ≤ n → n < w.calls + k → ∃ e, w.retrieve n = .error e) :
    (l.GetN k w).1 = l ∧ (l.GetN k w).2.calls = w.calls + k ∧
    (l.GetN k w).2.clock = w.clock ∧ (l.GetN k w).2.retrieve = w.retrieve := by
  induction k generalizing w with
  | zero => exact ⟨rfl, rfl, rfl, rfl⟩
  | succ k ih =>
    have hstale : time.Before (w.clock w.ticks) l.expiry = false := by
      rw [hexp]
      simp only [time.Before, decide_eq_false_iff_not, not_lt]
      exact hclock w.ticks
    obtain ⟨e, he⟩ := hfail w.calls (Nat.le_refl _) (by omega)
    have hget := Get_miss_error l w e hstale he
    unfold RepoList.GetN
    rw [hget]
    have h := ih { w with ticks := w.ticks + 1, calls := w.calls + 1 } hclock
      (fun n h1 h2 => hfail n (by simp only at h1; omega) (by simp only at h2; omega))
    refine ⟨h.1, ?_, h.2.2.1, h.2.2.2⟩
    rw [h.2.1]
    simp only
    omega

/-- C19: a `RepoList` as `NewRepoList` returns it has an empty cache and the zero expiry; read
at any time not earlier than the zero time, its first `Get` calls `Retrieve` and returns
either the error or the filtered retrieval, never the initial cache as a hit; and after any
number of calls of `Get` whose retrievals all failed, the `RepoList` is as it was (expiry
unset) and the next `Get` calls `Retrieve` again. -/
theorem Get_on_fresh_list_retrieves (registry filter : String) (creds : CredsPtr)
    (bearer : Bool) (copyOutcome : Option GoError) (h h1 : Heap) (l : RepoList) (w : World)
    (hnew : NewRepoList registry filter creds bearer copyOutcome h = some (.ok l, h1))
    (hclock : ∀ n, 0 ≤ w.clock n) :
    l.repos = [] ∧ l.expiry = 0 ∧
    (l.Get w).2.2.calls = w.calls + 1 ∧
    (l.Get w).1 = (w.retrieve w.calls).map (fun raw => raw.filter fun r => l.filter.MatchString r) ∧
    ∀ k, (∀ n, w.calls ≤ n → n < w.calls + k → ∃ e, w.retrieve n = .error e) →
      (l.GetN k w).1.expiry = 0 ∧ (l.GetN k w).1 = l ∧
      (l.GetN k w).2.calls = w.calls + k ∧
      (((l.GetN k w).1).Get (l.GetN k w).2).2.2.calls = w.calls + k + 1 := by
  obtain ⟨hrepos, hexp⟩ :=
    NewRepoList_zero_cache registry filter creds bearer copyOutcome h h1 l hnew
  have hstale : ∀ w2 : World, (∀ n, 0 ≤ w2.clock n) →
      time.Before (w2.clock w2.ticks) l.expiry = false := by
    intro w2 hc2
    rw [hexp]
    simp only [time.Before, decide_eq_false_iff_not, not_lt]
    exact hc2 w2.ticks
  refine ⟨hrepos, hexp, ?_, ?_, ?_⟩
  · exact ((Get_retrieves_calls l w).2 (hstale w hclock))
  · cases hret : w.retrieve w.calls with
    | error e => rw [Get_miss_error l w e (hstale w hclock) hret]; rfl
    | ok raw => rw [Get_miss_ok l w raw (hstale w hclock) hret]; rfl
  · intro k hfail
    obtain ⟨hl, hcalls, hclk, -⟩ := GetN_all_failed k l w hexp hclock hfail
    refine ⟨by rw [hl, hexp], hl, hcalls, ?_⟩
    rw [hl]
    have hc2 : ∀ n, 0 ≤ (l.GetN k w).2.clock n := by
      rw [hclk]
      exact hclock
    rw [(Get_retrieves_calls l (l.GetN k w).2).2 (hstale _ hc2), hcalls]

/-- Instance of C19: three calls of `Get` on a fresh list whose source always fails. -/
theorem Get_on_fresh_list_retrieves_witness :
    NewRepoList "registry.example.com:5000" "a/.*" 0 false none exampleHeap
      = some (.ok exampleList, exampleHeap) ∧
    (exampleList.Get deadWorld).2.2.calls = 1 ∧
    (exampleList.GetN 3 deadWorld).1.expiry = 0 ∧
    (exampleList.GetN 3 deadWorld).2.calls = 3 ∧
    (((exampleList.GetN 3 deadWorld).1).Get (exampleList.GetN 3 deadWorld).2).2.2.calls = 4 :=
  have h := Get_on_fresh_list_retrieves "registry.example.com:5000" "a/.*" 0 false none
    exampleHeap exampleHeap exampleList deadWorld (by decide)
    (fun n => Int.add_nonneg (by decide) (Int.ofNat_nonneg n))
  have h3 := h.2.2.2.2 3 (fun _ _ _ => ⟨⟨"connection refused"⟩, rfl⟩)
  ⟨by decide, h.2.2.1, h3.1, h3.2.2.1, h3.2.2.2⟩
